import Mathlib

/-!
Verification development for the FalconPy adaptive thumbnail cache and
concurrent image-loading subsystem.

The definitions below are a shallow embedding of the Python sources:
* `src/src/core/cache_manager.py`   (class `CacheManager`)
* `src/src/ui/widgets/image_loader.py`  (classes `ImageLoadWorker`, `ImageLoader`)
* `src/src/ui/widgets/thumbnail_cache.py` (class `ThumbnailCache`)

Modelling conventions:
* Python `dict`s (which preserve insertion order and update keys in place)
  are modelled as association lists with the helpers `alLookup` / `alUpdate`
  / `alErase` below.
* `QPixmap` is modelled by its width and height (`Pix`), which is all the
  source ever reads from it (`width() * height() * 4`).
* Wall-clock instants (`time.time()`, `time.perf_counter()*1000`) are passed
  in explicitly as a `now` argument.
* `hashlib.md5(url).hexdigest()` is an external deterministic, injective-in-
  practice hash; it is modelled as the identity on strings
  (`get_cache_key url = url`).  All theorems depend only on determinism of
  the key function.
* Python `float` statistics are modelled by exact rationals `ℚ`
  (constants such as `0.8` and `0.2` become `4/5` and `1/5`).
* Disk and network I/O errors are out of scope of the claims proved here;
  reads and deletions are modelled as succeeding.
-/

set_option autoImplicit false

namespace FalconPy

/-- A decoded bitmap, modelled by its dimensions (all the source reads). -/
structure Pix where
  width : Nat
  height : Nat
deriving DecidableEq, Repr

/-- Estimated pixmap size `pixmap.width() * pixmap.height() * 4  # RGBA` (cache_manager.py:89). -/
def pixSize (p : Pix) : Int := (p.width * p.height * 4 : Nat)

/-- Raw downloaded bytes. -/
abbrev Bytes := List Nat

/-- Python `dict` lookup (`d[k]` / `k in d`): first binding for `k`. -/
def alLookup {α : Type} (k : String) : List (String × α) → Option α
  | [] => none
  | (k', v) :: rest => if k' = k then some v else alLookup k rest

/-- Python `dict` store `d[k] = v`: replace in place, else append. -/
def alUpdate {α : Type} (k : String) (v : α) : List (String × α) → List (String × α)
  | [] => [(k, v)]
  | (k', v') :: rest => if k' = k then (k, v) :: rest else (k', v') :: alUpdate k v rest

/-- Python `dict` delete `del d[k]` / `d.pop(k)`: drop the first binding. -/
def alErase {α : Type} (k : String) : List (String × α) → List (String × α)
  | [] => []
  | (k', v') :: rest => if k' = k then rest else (k', v') :: alErase k rest

/-- The keys of an association list, in order. -/
def alKeys {α : Type} (l : List (String × α)) : List String := l.map Prod.fst

/-- Embeds `CacheManager.get_cache_key`: md5 hex digest of the URL, modelled as the
URL itself (see the header comment). -/
def get_cache_key (url : String) : String := url

/-- The string hashed for a size-variant key: `f"{url}|{w}x{h}"`. -/
def variant_url (url : String) (size : Nat × Nat) : String :=
  url ++ "|" ++ toString size.1 ++ "x" ++ toString size.2

/-- State of a `CacheManager` instance: the in-memory pixmap cache with its
byte counter and access times, hit/miss counters, and the on-disk
`*.cache` file store (key, mtime, bytes). `cache_cleared_count` counts
emissions of the `cache_cleared` signal. -/
structure CacheManagerState where
  memory_cache : List (String × Pix)
  memory_cache_size : Int
  access_times : List (String × Nat)
  max_memory_cache_bytes : Nat
  hits : Nat
  misses : Nat
  disk : List (String × Nat × Bytes)
  max_size_bytes : Nat
  cache_cleared_count : Nat
deriving DecidableEq, Repr

/-- A fresh `CacheManager(cache_dir, max_size_mb, max_memory_cache_mb)`
with the size arguments already converted to bytes. -/
def CacheManagerState.init (maxDiskBytes maxMemBytes : Nat) : CacheManagerState where
  memory_cache := []
  memory_cache_size := 0
  access_times := []
  max_memory_cache_bytes := maxMemBytes
  hits := 0
  misses := 0
  disk := []
  max_size_bytes := maxDiskBytes
  cache_cleared_count := 0

/-- Total estimated size of the pixmaps stored in the memory cache. -/
def memSizes (l : List (String × Pix)) : Int := (l.map (fun e => pixSize e.2)).sum

/-- One iteration body of the `for cache_key, _ in sorted_items:` loop of
`CacheManager._cleanup_memory_cache` (cache_manager.py:114-120): pop the
entry if present (subtracting its estimated size) and delete its access
time. -/
def cleanupStep (k : String) (st : CacheManagerState) : CacheManagerState :=
  let st1 :=
    match alLookup k st.memory_cache with
    | some p =>
      { st with memory_cache := alErase k st.memory_cache
                memory_cache_size := st.memory_cache_size - pixSize p }
    | none => st
  { st1 with access_times := alErase k st1.access_times }

/-- The `for cache_key, _ in sorted_items:` loop of
`CacheManager._cleanup_memory_cache` (cache_manager.py:110-120): stop once
`memory_cache_size <= target`, otherwise run `cleanupStep`. -/
def cleanupLoop (target : Int) : List (String × Nat) → CacheManagerState → CacheManagerState
  | [], st => st
  | (k, _) :: rest, st =>
    if st.memory_cache_size ≤ target then st
    else cleanupLoop target rest (cleanupStep k st)

/-- Embeds `sorted(self.access_times.items(), key=lambda x: x[1])`: the stable
sort of Python, modelled by insertion sort on the strict order of timestamps. -/
def sortedByAccess (l : List (String × Nat)) : List (String × Nat) :=
  List.insertionSort (fun a b => a.2 < b.2) l

/-- Embeds `CacheManager._cleanup_memory_cache` (cache_manager.py:103-120): evict
least-recently-accessed entries until the counter is at most half the cap. -/
def cleanup_memory_cache (st : CacheManagerState) : CacheManagerState :=
  cleanupLoop ((st.max_memory_cache_bytes / 2 : Nat) : Int) (sortedByAccess st.access_times) st

/-- Embeds `CacheManager.put_to_memory` (cache_manager.py:85-101). -/
def put_to_memory (now : Nat) (key : String) (p : Pix) (st : CacheManagerState) :
    CacheManagerState :=
  let s := pixSize p
  let st1 :=
    if st.memory_cache_size + s > (st.max_memory_cache_bytes : Int) then
      cleanup_memory_cache st
    else st
  if s > ((st1.max_memory_cache_bytes / 2 : Nat) : Int) then st1
  else
    { st1 with memory_cache := alUpdate key p st1.memory_cache
               memory_cache_size := st1.memory_cache_size + s
               access_times := alUpdate key now st1.access_times }

/-- Embeds `CacheManager.get_from_memory` (cache_manager.py:74-83). -/
def get_from_memory (now : Nat) (key : String) (st : CacheManagerState) :
    Option Pix × CacheManagerState :=
  match alLookup key st.memory_cache with
  | some p =>
    (some p, { st with access_times := alUpdate key now st.access_times, hits := st.hits + 1 })
  | none => (none, { st with misses := st.misses + 1 })

/-- Size in bytes of one cached disk file. -/
def fileSize (f : String × Nat × Bytes) : Nat := f.2.2.length

/-- Embeds `CacheManager.get_cache_size`: total size of the `*.cache` files. -/
def diskTotal (l : List (String × Nat × Bytes)) : Nat := (l.map fileSize).sum

/-- Embeds `cache_files.sort(key=lambda x: x[1])`: stable sort by mtime. -/
def sortedByMtime (l : List (String × Nat × Bytes)) : List (String × Nat × Bytes) :=
  List.insertionSort (fun a b => a.2.1 < b.2.1) l

/-- Embeds the test `total_size <= self.max_size_bytes * 0.8`, with the float constant `0.8`
modelled exactly as the rational `4/5`. -/
def withinDiskTarget (cap total : Nat) : Prop := (total : ℚ) ≤ (cap : ℚ) * (4 / 5)

instance (cap total : Nat) : Decidable (withinDiskTarget cap total) :=
  inferInstanceAs (Decidable ((total : ℚ) ≤ (cap : ℚ) * (4 / 5)))

/-- The deletion loop of `CacheManager.cleanup_old_files`
(cache_manager.py:204-212): walk the mtime-sorted files, deleting until the
running total is within the 80% target; returns the keys deleted.
Deletions are modelled as succeeding (the claim conditions on that). -/
def sweepKeys (cap : Nat) : List (String × Nat × Bytes) → Nat → List String
  | [], _ => []
  | f :: rest, total =>
    if withinDiskTarget cap total then []
    else f.1 :: sweepKeys cap rest (total - fileSize f)

/-- Embeds `CacheManager.cleanup_old_files` (cache_manager.py:186-216): sort the
cache files by mtime, delete oldest-first down to 80% of the cap, then emit
`cache_cleared`. -/
def cleanup_old_files (st : CacheManagerState) : CacheManagerState :=
  let doomed := sweepKeys st.max_size_bytes (sortedByMtime st.disk) (diskTotal st.disk)
  { st with disk := st.disk.filter (fun f => !(doomed.contains f.1))
            cache_cleared_count := st.cache_cleared_count + 1 }

/-- Embeds `CacheManager.get_from_disk` (cache_manager.py:143-160): on a hit
the mtime of the file is refreshed (`os.utime`).  Read errors are not modelled. -/
def get_from_disk (now : Nat) (key : String) (st : CacheManagerState) :
    Option Bytes × CacheManagerState :=
  match alLookup key st.disk with
  | some md => (some md.2, { st with disk := alUpdate key (now, md.2) st.disk })
  | none => (none, st)

/-- Embeds `CacheManager.put_to_disk` (cache_manager.py:162-174): sweep first if the
write would exceed the disk cap, then write the file. -/
def put_to_disk (now : Nat) (key : String) (data : Bytes) (st : CacheManagerState) :
    CacheManagerState :=
  let st1 :=
    if diskTotal st.disk + data.length > st.max_size_bytes then cleanup_old_files st else st
  { st1 with disk := alUpdate key (now, data) st1.disk }

/-- Embeds `CacheManager.clear_all_cache` (cache_manager.py:218-233). -/
def clear_all_cache (st : CacheManagerState) : CacheManagerState :=
  { st with memory_cache := []
            memory_cache_size := 0
            access_times := []
            disk := []
            cache_cleared_count := st.cache_cleared_count + 1 }

/-- Events emitted through the Qt signals `image_loaded` / `load_failed`
(and re-emitted as `thumbnail_loaded` / `thumbnail_failed`). -/
inductive WEvent where
  | loaded (url : String) (p : Pix)
  | failed (url : String)
deriving DecidableEq, Repr

/-- The disk tier with mtimes erased: the persisted keys and contents. -/
def diskData (st : CacheManagerState) : List (String × Bytes) :=
  st.disk.map (fun f => (f.1, f.2.2))

/-- The success tail of `ImageLoadWorker.run` (image_loader.py:85-102):
decode the downloaded bytes; on success write the raw bytes to disk and the
(possibly rescaled) pixmap to memory, else emit `load_failed`.
`decode` models `QPixmap.loadFromData`, `scaleFn` models `QPixmap.scaled`
with `KeepAspectRatio`; `net = none` models a `requests` exception. -/
def workerFromNetwork (decode : Bytes → Option Pix) (scaleFn : Pix → Nat × Nat → Pix)
    (now : Nat) (url : String) (size? : Option (Nat × Nat)) (net : Option Bytes)
    (st : CacheManagerState) : CacheManagerState × List WEvent :=
  match net with
  | none => (st, [WEvent.failed url])
  | some data =>
    match decode data with
    | some pix =>
      let st1 := put_to_disk now (get_cache_key url) data st
      match size? with
      | some sz =>
        let scaled := scaleFn pix sz
        (put_to_memory now (get_cache_key (variant_url url sz)) scaled st1,
         [WEvent.loaded url scaled])
      | none =>
        (put_to_memory now (get_cache_key url) pix st1, [WEvent.loaded url pix])
    | none => (st, [WEvent.failed url])

/-- The disk-cache branch of `ImageLoadWorker.run` (image_loader.py:59-77):
decode the cached bytes; on success write only the memory tier; on a decode
failure the code falls through to the network download. -/
def workerFromDisk (decode : Bytes → Option Pix) (scaleFn : Pix → Nat × Nat → Pix)
    (now : Nat) (url : String) (size? : Option (Nat × Nat)) (net : Option Bytes)
    (dd : Option Bytes) (st : CacheManagerState) : CacheManagerState × List WEvent :=
  match dd with
  | some data =>
    match decode data with
    | some pix =>
      match size? with
      | some sz =>
        let scaled := scaleFn pix sz
        (put_to_memory now (get_cache_key (variant_url url sz)) scaled st,
         [WEvent.loaded url scaled])
      | none =>
        (put_to_memory now (get_cache_key url) pix st, [WEvent.loaded url pix])
    | none => workerFromNetwork decode scaleFn now url size? net st
  | none => workerFromNetwork decode scaleFn now url size? net st

/-- Embeds `ImageLoadWorker.run` (image_loader.py:29-107): memory tier first
(variant key, then base key, rescaling a base hit when a size is requested),
then the disk tier, then the network. -/
def workerRun (decode : Bytes → Option Pix) (scaleFn : Pix → Nat × Nat → Pix)
    (now : Nat) (url : String) (size? : Option (Nat × Nat)) (net : Option Bytes)
    (st : CacheManagerState) : CacheManagerState × List WEvent :=
  let mv :=
    match size? with
    | some sz => get_from_memory now (get_cache_key (variant_url url sz)) st
    | none => (none, st)
  let mb :=
    match mv.1 with
    | none => get_from_memory now (get_cache_key url) mv.2
    | some p => (some p, mv.2)
  match mb.1 with
  | some p =>
    match size? with
    | some sz =>
      if p.width ≠ sz.1 ∨ p.height ≠ sz.2 then
        let scaled := scaleFn p sz
        (put_to_memory now (get_cache_key (variant_url url sz)) scaled mb.2,
         [WEvent.loaded url scaled])
      else (mb.2, [WEvent.loaded url p])
    | none => (mb.2, [WEvent.loaded url p])
  | none =>
    let dres := get_from_disk now (get_cache_key url) mb.2
    workerFromDisk decode scaleFn now url size? net dres.1 dres.2

/-- State of an `ImageLoader` instance (image_loader.py:115-129).
`spawned` is a ghost log recording every worker launch (each launch is one
network-fetch attempt); it is written exactly where `worker.start()` runs
and read by no definition. -/
structure LoaderState where
  cm : CacheManagerState
  max_concurrent : Int
  active_workers : List String
  pending_requests : List (String × Option (Nat × Nat))
  dispatch_timer_active : Bool
  last_launch_ms : Int
  start_ts : List (String × Int)
  sum_load_ms : ℚ
  count_loaded : Nat
  cancel_count : Nat
  spawned : List (String × Option (Nat × Nat))
  emitted : List WEvent
deriving DecidableEq, Repr

/-- Constant `self._min_launch_interval_ms = 30`. -/
def min_launch_interval_ms : Int := 30

/-- Embeds `ImageLoader.load_image` (image_loader.py:131-185): in-flight dedup by
URL, memory-cache fast path (variant first, then base with an on-the-fly
rescale), then either enqueue (pool full or launch throttled) or spawn a
worker. -/
def load_image (scaleFn : Pix → Nat × Nat → Pix) (now : Nat) (url : String)
    (size? : Option (Nat × Nat)) (st : LoaderState) : Bool × LoaderState :=
  if st.active_workers.contains url then (false, st)
  else
    let mv :=
      match size? with
      | some sz => get_from_memory now (get_cache_key (variant_url url sz)) st.cm
      | none => (none, st.cm)
    let st0 := { st with cm := mv.2 }
    match mv.1 with
    | some p => (true, { st0 with emitted := st0.emitted ++ [WEvent.loaded url p] })
    | none =>
      let mb := get_from_memory now (get_cache_key url) st0.cm
      let st1 := { st0 with cm := mb.2 }
      match mb.1, size? with
      | some p, some sz =>
        let scaled := scaleFn p sz
        let cm2 := put_to_memory now (get_cache_key (variant_url url sz)) scaled st1.cm
        (true, { st1 with cm := cm2, emitted := st1.emitted ++ [WEvent.loaded url scaled] })
      | some p, none =>
        (true, { st1 with emitted := st1.emitted ++ [WEvent.loaded url p] })
      | none, _ =>
        if (st1.active_workers.length : Int) ≥ st1.max_concurrent then
          let st2 :=
            if st1.pending_requests.contains (url, size?) then st1
            else { st1 with pending_requests := st1.pending_requests ++ [(url, size?)] }
          (false, { st2 with dispatch_timer_active := true })
        else if (now : Int) - st1.last_launch_ms < min_launch_interval_ms then
          let st2 :=
            if st1.pending_requests.contains (url, size?) then st1
            else { st1 with pending_requests := st1.pending_requests ++ [(url, size?)] }
          (false, { st2 with dispatch_timer_active := true })
        else
          (true, { st1 with last_launch_ms := (now : Int)
                            active_workers := st1.active_workers ++ [url]
                            start_ts := alUpdate url (now : Int) st1.start_ts
                            spawned := st1.spawned ++ [(url, size?)] })

/-- A value as compared by Python `==` in `url in self.pending_requests`
(image_loader.py:240): the probe is a `str`, the list elements are
`(url, size)` tuples; values of different types are never equal. -/
inductive PyVal where
  | vstr (s : String)
  | vtuple (url : String) (size : Option (Nat × Nat))
deriving DecidableEq

/-- Embeds `url in self.pending_requests` with Python `==` semantics. -/
def pendingContainsStr (url : String) (ps : List (String × Option (Nat × Nat))) : Bool :=
  ps.any (fun e => PyVal.vstr url == PyVal.vtuple e.1 e.2)

/-- Embeds `self.pending_requests.remove(url)`: drop the first entry `==` to `url`. -/
def pyRemoveStr (url : String) :
    List (String × Option (Nat × Nat)) → List (String × Option (Nat × Nat))
  | [] => []
  | e :: rest =>
    if PyVal.vstr url == PyVal.vtuple e.1 e.2 then rest else e :: pyRemoveStr url rest

/-- Embeds `ImageLoader.cancel_load` (image_loader.py:231-241). -/
def cancel_load (url : String) (st : LoaderState) : LoaderState :=
  let st1 :=
    if st.active_workers.contains url then
      { st with active_workers := st.active_workers.erase url
                cancel_count := st.cancel_count + 1 }
    else st
  if pendingContainsStr url st1.pending_requests then
    { st1 with pending_requests := pyRemoveStr url st1.pending_requests }
  else st1

/-- Embeds `ImageLoader.set_max_concurrent` (image_loader.py:267-272): `int(n)`
conversion, clamped below by 1.  `none` models an argument on which `int`
raises, which leaves the state unchanged. -/
def set_max_concurrent (n : Option Int) (st : LoaderState) : LoaderState :=
  match n with
  | none => st
  | some k => { st with max_concurrent := max 1 k }

/-- The dictionary returned by `ImageLoader.get_load_stats`
(image_loader.py:255-265). -/
structure LoadStats where
  active_loads : Int
  pending_loads : Int
  max_concurrent : Int
  loaded_count : Nat
  cancel_count : Nat
  avg_load_ms : ℚ
deriving DecidableEq, Repr

/-- Embeds `ImageLoader.get_load_stats`. -/
def get_load_stats (st : LoaderState) : LoadStats where
  active_loads := st.active_workers.length
  pending_loads := st.pending_requests.length
  max_concurrent := st.max_concurrent
  loaded_count := st.count_loaded
  cancel_count := st.cancel_count
  avg_load_ms := if st.count_loaded > 0 then st.sum_load_ms / (st.count_loaded : ℚ) else 0

/-- State of a `ThumbnailCache` instance (thumbnail_cache.py:22-60). -/
structure ThumbState where
  loader : LoaderState
  base_max_concurrent : Int
  last_adjust_ms : Int
  paused : Bool
  ema_hit_rate : ℚ
  ema_avg_ms : ℚ
  preload_queue : List (String × (Nat × Nat))
  preload_timer_active : Bool
  preload_delay : Int
  variant_queue : List (String × (Nat × Nat))
  variant_timer_active : Bool
  variant_delay : Int
  priority_urls : List String
  cache_hits : Nat
  cache_misses : Nat
  preload_hits : Nat
  total_requests : Nat
  emitted : List WEvent
deriving DecidableEq, Repr

/-- Constant `self._ema_alpha = 0.2`, modelled exactly as `1/5`. -/
def ema_alpha : ℚ := 1 / 5

/-- Embeds the value `cache_hits / max(1, total_requests)` stored under the
key cache_hit_rate of `combined_stats`. -/
def cache_hit_rate (st : ThumbState) : ℚ :=
  (st.cache_hits : ℚ) / ((max 1 st.total_requests : Nat) : ℚ)

/-- Embeds `ThumbnailCache._update_stats` (thumbnail_cache.py:225-259): refresh the
exponential moving averages, then — at most once per 500 ms — run the
adaptive concurrency controller.  Note the source initialises `target` to
`base_max_concurrent`, tests `pending > 20 and active >= current` for the
decrease, and tests the **raw** `cache_hit_rate` (not the EMA) for the
increase. -/
def update_stats (now : Nat) (st : ThumbState) : ThumbState :=
  let ls := get_load_stats st.loader
  let hr := cache_hit_rate st
  let st1 :=
    { st with ema_hit_rate := ema_alpha * hr + (1 - ema_alpha) * st.ema_hit_rate
              ema_avg_ms := ema_alpha * ls.avg_load_ms + (1 - ema_alpha) * st.ema_avg_ms }
  if (now : Int) - st1.last_adjust_ms ≥ 500 then
    let active := ls.active_loads
    let pending := ls.pending_loads
    let current := ls.max_concurrent
    let target :=
      if pending > 20 ∧ active ≥ current then max 2 (current - 1)
      else if hr > 7 / 10 ∧ current < st1.base_max_concurrent then
        min st1.base_max_concurrent (current + 1)
      else st1.base_max_concurrent
    let st2 :=
      if target ≠ current then
        { st1 with loader := set_max_concurrent (some target) st1.loader }
      else st1
    { st2 with last_adjust_ms := (now : Int) }
  else st1

/-- The scan loop of `ThumbnailCache.preload_thumbnails`
(thumbnail_cache.py:118-128): returns the `uncached_urls` list and the state
after the membership probes and any variant-queue appends. -/
def preloadScan (now : Nat) (size : Nat × Nat) :
    List String → ThumbState → List String × ThumbState
  | [], st => ([], st)
  | url :: rest, st =>
    let mv := get_from_memory now (get_cache_key (variant_url url size)) st.loader.cm
    let st1 := { st with loader := { st.loader with cm := mv.2 } }
    if mv.1.isSome then preloadScan now size rest st1
    else
      let mb := get_from_memory now (get_cache_key url) st1.loader.cm
      let st2 := { st1 with loader := { st1.loader with cm := mb.2 } }
      if mb.1.isSome then
        let st3 :=
          if st2.variant_queue.contains (url, size) then st2
          else { st2 with variant_queue := st2.variant_queue ++ [(url, size)] }
        preloadScan now size rest st3
      else
        let r := preloadScan now size rest st2
        (url :: r.1, r.2)

/-- The second loop of `ThumbnailCache.preload_thumbnails`
(thumbnail_cache.py:131-133): append uncached URLs to the preload queue. -/
def appendPreload (size : Nat × Nat) : List String → ThumbState → ThumbState
  | [], st => st
  | url :: rest, st =>
    let st1 :=
      if st.preload_queue.contains (url, size) then st
      else { st with preload_queue := st.preload_queue ++ [(url, size)] }
    appendPreload size rest st1

/-- Embeds `ThumbnailCache.preload_thumbnails` (thumbnail_cache.py:110-139). -/
def preload_thumbnails (now : Nat) (urls : List String) (size : Nat × Nat)
    (st : ThumbState) : ThumbState :=
  let r := preloadScan now size urls st
  let st2 := appendPreload size r.1 r.2
  let st3 :=
    if st2.preload_queue ≠ [] ∧ ¬st2.preload_timer_active then
      { st2 with preload_timer_active := true }
    else st2
  if st3.variant_queue ≠ [] ∧ ¬st3.variant_timer_active then
    { st3 with variant_timer_active := true }
  else st3

/-- The `while self.variant_queue and processed < max_batch` loop of
`ThumbnailCache._process_variant_queue` (thumbnail_cache.py:181-194).
The first argument is the queue being drained; the `variant_queue` field of
the result holds whatever part of it was not consumed. -/
def variantLoop (scaleFn : Pix → Nat × Nat → Pix) (now : Nat) :
    List (String × (Nat × Nat)) → Nat → ThumbState → ThumbState
  | [], _, st => { st with variant_queue := [] }
  | e :: rest, processed, st =>
    if processed < 4 then
      let url := e.1
      let size := e.2
      let mv := get_from_memory now (get_cache_key (variant_url url size)) st.loader.cm
      let st1 := { st with loader := { st.loader with cm := mv.2 } }
      if mv.1.isSome then variantLoop scaleFn now rest processed st1
      else
        let mb := get_from_memory now (get_cache_key url) st1.loader.cm
        let st2 := { st1 with loader := { st1.loader with cm := mb.2 } }
        match mb.1 with
        | some bp =>
          let scaled := scaleFn bp size
          let cm3 := put_to_memory now (get_cache_key (variant_url url size)) scaled st2.loader.cm
          let st3 :=
            { st2 with loader := { st2.loader with cm := cm3 }
                       emitted := st2.emitted ++ [WEvent.loaded url scaled] }
          variantLoop scaleFn now rest (processed + 1) st3
        | none => variantLoop scaleFn now rest processed st2
    else { st with variant_queue := e :: rest }

/-- Embeds `ThumbnailCache._process_variant_queue` (thumbnail_cache.py:178-197):
drain up to 4 items, rescaling cached base pixmaps into variants — no
dispatcher interaction — then update stats and re-arm the timer if items
remain. -/
def process_variant_queue (scaleFn : Pix → Nat × Nat → Pix) (now : Nat)
    (st : ThumbState) : ThumbState :=
  if st.variant_queue = [] then st
  else
    let st1 := variantLoop scaleFn now st.variant_queue 0 st
    let st2 := update_stats now st1
    if st2.variant_queue ≠ [] then { st2 with variant_timer_active := true } else st2

/-- Embeds `ThumbnailCache.load_thumbnail` (thumbnail_cache.py:62-108). -/
def load_thumbnail (scaleFn : Pix → Nat × Nat → Pix) (now : Nat) (url : String)
    (size : Nat × Nat) (priority : Bool) (st : ThumbState) : Bool × ThumbState :=
  let st0 := { st with total_requests := st.total_requests + 1 }
  let mv := get_from_memory now (get_cache_key (variant_url url size)) st0.loader.cm
  let st1 := { st0 with loader := { st0.loader with cm := mv.2 } }
  match mv.1 with
  | some p =>
    let st2 := { st1 with cache_hits := st1.cache_hits + 1
                          emitted := st1.emitted ++ [WEvent.loaded url p] }
    (true, update_stats now st2)
  | none =>
    let mb := get_from_memory now (get_cache_key url) st1.loader.cm
    let st2 := { st1 with loader := { st1.loader with cm := mb.2 } }
    match mb.1 with
    | some bp =>
      let scaled := scaleFn bp size
      let cm3 := put_to_memory now (get_cache_key (variant_url url size)) scaled st2.loader.cm
      let st3 :=
        { st2 with loader := { st2.loader with cm := cm3 }
                   cache_hits := st2.cache_hits + 1
                   emitted := st2.emitted ++ [WEvent.loaded url scaled] }
      (true, update_stats now st3)
    | none =>
      let st3 := { st2 with cache_misses := st2.cache_misses + 1 }
      let st4 :=
        if priority then
          (if st3.priority_urls.contains url then st3
           else { st3 with priority_urls := st3.priority_urls ++ [url] })
        else st3
      let lr := load_image scaleFn now url (some size) st4.loader
      (false, update_stats now { st4 with loader := lr.2 })

/-! Concrete states used by the closed theorems below. -/

/-- A quiescent `ImageLoader` state over the given cache-manager state. -/
def mkLoader (cm : CacheManagerState) : LoaderState where
  cm := cm
  max_concurrent := 5
  active_workers := []
  pending_requests := []
  dispatch_timer_active := false
  last_launch_ms := 0
  start_ts := []
  sum_load_ms := 0
  count_loaded := 0
  cancel_count := 0
  spawned := []
  emitted := []

/-- A quiescent `ThumbnailCache` state over the given loader state. -/
def mkThumb (ldr : LoaderState) : ThumbState where
  loader := ldr
  base_max_concurrent := 5
  last_adjust_ms := 0
  paused := false
  ema_hit_rate := 0
  ema_avg_ms := 0
  preload_queue := []
  preload_timer_active := false
  preload_delay := 500
  variant_queue := []
  variant_timer_active := false
  variant_delay := 200
  priority_urls := []
  cache_hits := 0
  cache_misses := 0
  preload_hits := 0
  total_requests := 0
  emitted := []

/-- C10: `ImageLoader.set_max_concurrent(n)` stores `max(1, int(n))` for
every integer-convertible argument — the dispatcher enforces no upper bound
of its own, so values above `base_max_concurrent` are kept as given — and an
argument on which `int` raises leaves `max_concurrent` unchanged. -/
theorem set_max_concurrent_spec (st : LoaderState) (n : Int) :
    (set_max_concurrent (some n) st).max_concurrent = max 1 n ∧
    set_max_concurrent none st = st :=
  ⟨rfl, rfl⟩

/-- A loader with an active worker for url `u` and two pending entries. -/
def cancelDemo : LoaderState :=
  { mkLoader (CacheManagerState.init 1048576 1048576) with
      active_workers := ["u"]
      pending_requests := [("u", some (64, 64)), ("v", none)] }

/-- C5 (code bug): on a state with an active worker for url `u` and a
pending entry `("u", (64,64))`, `ImageLoader.cancel_load("u")` terminates
the worker (counting the cancellation) but leaves the pending queue
untouched: the guard `url in self.pending_requests` compares the string
against `(url, size)` tuples, which is always false in Python, so matching
pending entries are never removed, contrary to the documented contract. -/
theorem cancel_load_pending_bug :
    (cancel_load "u" cancelDemo).active_workers = [] ∧
    (cancel_load "u" cancelDemo).cancel_count = 1 ∧
    (cancel_load "u" cancelDemo).pending_requests = [("u", some (64, 64)), ("v", none)] := by
  decide

/-- A four-call trace refuting the unconditional memory-cap invariant: three
puts of a 307200-byte pixmap under one key (each re-put adds the full size
again without subtracting the replaced entry), then a put of a 524288-byte
pixmap under a fresh key. -/
def c1Trace : CacheManagerState :=
  put_to_memory 3 "b" ⟨256, 512⟩
    (put_to_memory 2 "a" ⟨512, 150⟩
      (put_to_memory 1 "a" ⟨512, 150⟩
        (put_to_memory 0 "a" ⟨512, 150⟩ (CacheManagerState.init 1048576 1048576))))

/-- C1 (counterexample): starting from an empty memory cache with a 1 MiB
cap, the `put_to_memory` sequence of `c1Trace` returns with
`memory_cache_size = 1138688 > 1048576 = max_memory_cache_bytes`, so the
claimed post-call invariant `memory_cache_size ≤ max_memory_cache_bytes`
fails on this sequence. -/
theorem put_to_memory_cap_counterexample :
    c1Trace.max_memory_cache_bytes = 1048576 ∧
    c1Trace.memory_cache_size = 1138688 ∧
    ¬ c1Trace.memory_cache_size ≤ (c1Trace.max_memory_cache_bytes : Int) := by
  decide

/-- A loader with `("u", none)` pending, no active worker, free capacity. -/
def c2Loader : LoaderState :=
  { mkLoader (CacheManagerState.init 1048576 1048576) with
      pending_requests := [("u", none)] }

/-- C2 (counterexample): with `("u", none)` already in the pending list, no
active worker, free capacity and the launch throttle elapsed
(`now = 100`, `last_launch = 0`, interval 30 ms), `load_image("u")` spawns
a worker — refuting the claim that a call finding `(url, size)` already
pending spawns no worker. -/
theorem load_image_dedup_counterexample :
    c2Loader.pending_requests.contains ("u", none) = true ∧
    c2Loader.active_workers = [] ∧
    (load_image (fun p _ => p) 100 "u" none c2Loader).2.spawned.length =
      c2Loader.spawned.length + 1 := by
  decide

/-- A scheduler state with 1 active worker and a backlog of 10. -/
def c3State : ThumbState :=
  mkThumb { mkLoader (CacheManagerState.init 1048576 1048576) with
              active_workers := ["w"]
              pending_requests :=
                [("p0", none), ("p1", none), ("p2", none), ("p3", none), ("p4", none),
                 ("p5", none), ("p6", none), ("p7", none), ("p8", none), ("p9", none)] }

/-- C3 (counterexample): at an eligible controller tick (600 ms since the
last adjustment) the pending backlog is 10, which exceeds twice the single
active worker, yet `max_concurrent` stays 5 instead of decreasing to 4: the
code decreases only when the backlog exceeds 20 and
`active >= max_concurrent`. -/
theorem controller_decrease_counterexample :
    (get_load_stats c3State.loader).pending_loads = 10 ∧
    (get_load_stats c3State.loader).active_loads = 1 ∧
    ((600 : Nat) : Int) - c3State.last_adjust_ms ≥ 500 ∧
    c3State.loader.max_concurrent = 5 ∧
    (update_stats 600 c3State).loader.max_concurrent = 5 := by
  refine ⟨by decide, by decide, by decide, by decide, ?_⟩
  simp only [update_stats, get_load_stats, cache_hit_rate, ema_alpha, c3State, mkThumb, mkLoader]
  norm_num [set_max_concurrent]

/-- A scheduler state with smoothed hit-rate 0.9, raw hit-rate 0, and
`max_concurrent = 3` below `base_max_concurrent = 5`. -/
def c4State : ThumbState :=
  { mkThumb { mkLoader (CacheManagerState.init 1048576 1048576) with max_concurrent := 3 } with
      ema_hit_rate := 9 / 10
      total_requests := 5 }

/-- C4 (counterexample): at an eligible tick the exponentially-smoothed
hit-rate is 0.9 (still 0.72 > 0.7 after the update) and
`max_concurrent = 3 < base_max_concurrent = 5`, yet the controller sets
`max_concurrent` to 5, not 4: the increase branch tests the raw cumulative
hit-rate (here 0), and when neither branch fires the controller resets
`max_concurrent` to `base_max_concurrent`. -/
theorem controller_increase_counterexample :
    c4State.ema_hit_rate > 7 / 10 ∧
    (update_stats 600 c4State).ema_hit_rate > 7 / 10 ∧
    c4State.loader.max_concurrent = 3 ∧
    c4State.base_max_concurrent = 5 ∧
    ((600 : Nat) : Int) - c4State.last_adjust_ms ≥ 500 ∧
    (update_stats 600 c4State).loader.max_concurrent = 5 ∧
    (update_stats 600 c4State).loader.max_concurrent ≠ 3 + 1 := by
  refine ⟨?_, ?_, by decide, by decide, by decide, ?_, ?_⟩
  · norm_num [c4State, mkThumb, mkLoader]
  · simp only [update_stats, get_load_stats, cache_hit_rate, ema_alpha, c4State, mkThumb, mkLoader]
    norm_num
  · simp only [update_stats, get_load_stats, cache_hit_rate, ema_alpha, c4State, mkThumb, mkLoader]
    norm_num [set_max_concurrent]
  · simp only [update_stats, get_load_stats, cache_hit_rate, ema_alpha, c4State, mkThumb, mkLoader]
    norm_num [set_max_concurrent]

/-! Association-list lemmas. -/

theorem pixSize_nonneg (p : Pix) : 0 ≤ pixSize p := Int.ofNat_nonneg _

theorem memSizes_nil : memSizes [] = 0 := rfl

theorem memSizes_cons (e : String × Pix) (l : List (String × Pix)) :
    memSizes (e :: l) = pixSize e.2 + memSizes l := by
  simp [memSizes]

theorem memSizes_nonneg (l : List (String × Pix)) : 0 ≤ memSizes l := by
  induction l with
  | nil => simp [memSizes]
  | cons e rest ih =>
    rw [memSizes_cons]
    have := pixSize_nonneg e.2
    omega

theorem memSizes_append (l₁ l₂ : List (String × Pix)) :
    memSizes (l₁ ++ l₂) = memSizes l₁ + memSizes l₂ := by
  simp [memSizes]

theorem alKeys_cons {α : Type} (e : String × α) (l : List (String × α)) :
    alKeys (e :: l) = e.1 :: alKeys l := rfl

theorem mem_alKeys_cons {α : Type} (a k : String) (v : α) (l : List (String × α)) :
    a ∈ alKeys ((k, v) :: l) ↔ a = k ∨ a ∈ alKeys l := by
  simp [alKeys]

theorem alLookup_eq_none_iff {α : Type} (k : String) (l : List (String × α)) :
    alLookup k l = none ↔ k ∉ alKeys l := by
  induction l with
  | nil => simp [alLookup, alKeys]
  | cons e rest ih =>
    obtain ⟨k', v⟩ := e
    rw [mem_alKeys_cons]
    by_cases h : k' = k
    · simp [alLookup, h]
    · have h2 : ¬k = k' := fun hh => h hh.symm
      simp [alLookup, h, h2, ih]

theorem alLookup_isSome_iff {α : Type} (k : String) (l : List (String × α)) :
    (alLookup k l).isSome = true ↔ k ∈ alKeys l := by
  rw [← Decidable.not_iff_not, ← alLookup_eq_none_iff k l]
  cases alLookup k l <;> simp

theorem alUpdate_of_not_mem {α : Type} (k : String) (v : α) (l : List (String × α))
    (h : k ∉ alKeys l) : alUpdate k v l = l ++ [(k, v)] := by
  induction l with
  | nil => rfl
  | cons e rest ih =>
    obtain ⟨k', v'⟩ := e
    rw [mem_alKeys_cons] at h
    push_neg at h
    have h1 : ¬k' = k := fun hh => h.1 hh.symm
    simp [alUpdate, h1, ih h.2]

theorem alLookup_alUpdate_self {α : Type} (k : String) (v : α) (l : List (String × α)) :
    alLookup k (alUpdate k v l) = some v := by
  induction l with
  | nil => simp [alUpdate, alLookup]
  | cons e rest ih =>
    obtain ⟨k', v'⟩ := e
    by_cases h : k' = k <;> simp [alUpdate, alLookup, h, ih]

theorem alKeys_alUpdate_of_mem {α : Type} (k : String) (v : α) (l : List (String × α))
    (h : k ∈ alKeys l) : alKeys (alUpdate k v l) = alKeys l := by
  induction l with
  | nil => simp [alKeys] at h
  | cons e rest ih =>
    obtain ⟨k', v'⟩ := e
    by_cases hk : k' = k
    · simp [alUpdate, hk, alKeys]
    · rw [mem_alKeys_cons] at h
      rcases h with h | h
      · exact absurd h.symm hk
      · simp only [alUpdate, if_neg hk]
        rw [alKeys_cons, alKeys_cons, ih h]

theorem memSizes_alUpdate_le (k : String) (p : Pix) (l : List (String × Pix)) :
    memSizes (alUpdate k p l) ≤ memSizes l + pixSize p := by
  induction l with
  | nil => simp [alUpdate, memSizes]
  | cons e rest ih =>
    obtain ⟨k', q⟩ := e
    by_cases h : k' = k
    · have := pixSize_nonneg q
      simp only [alUpdate, if_pos h, memSizes_cons]
      omega
    · simp only [alUpdate, if_neg h, memSizes_cons]
      omega

theorem memSizes_alUpdate_of_not_mem (k : String) (p : Pix) (l : List (String × Pix))
    (h : k ∉ alKeys l) : memSizes (alUpdate k p l) = memSizes l + pixSize p := by
  rw [alUpdate_of_not_mem k p l h, memSizes_append]
  simp [memSizes]

theorem alErase_sublist {α : Type} (k : String) (l : List (String × α)) :
    (alErase k l).Sublist l := by
  induction l with
  | nil => simp [alErase]
  | cons e rest ih =>
    obtain ⟨k', v'⟩ := e
    by_cases h : k' = k
    · rw [alErase, if_pos h]
      exact List.sublist_cons_self _ _
    · rw [alErase, if_neg h]
      exact ih.cons₂ _

theorem alKeys_alErase_sublist {α : Type} (k : String) (l : List (String × α)) :
    (alKeys (alErase k l)).Sublist (alKeys l) :=
  (alErase_sublist k l).map Prod.fst

theorem mem_alKeys_of_alErase {α : Type} (a k : String) (l : List (String × α))
    (h : a ∈ alKeys (alErase k l)) : a ∈ alKeys l :=
  (alKeys_alErase_sublist k l).mem h

theorem alErase_of_not_mem {α : Type} (k : String) (l : List (String × α))
    (h : k ∉ alKeys l) : alErase k l = l := by
  induction l with
  | nil => rfl
  | cons e rest ih =>
    obtain ⟨k', v'⟩ := e
    rw [mem_alKeys_cons] at h
    push_neg at h
    have h1 : ¬k' = k := fun hh => h.1 hh.symm
    simp [alErase, h1, ih h.2]

theorem memSizes_alErase (k : String) (p : Pix) (l : List (String × Pix))
    (h : alLookup k l = some p) : memSizes (alErase k l) = memSizes l - pixSize p := by
  induction l with
  | nil => simp [alLookup] at h
  | cons e rest ih =>
    obtain ⟨k', q⟩ := e
    by_cases hk : k' = k
    · simp only [alLookup, if_pos hk] at h
      obtain rfl : q = p := by injection h
      simp only [alErase, if_pos hk, memSizes_cons]
      omega
    · simp only [alLookup, if_neg hk] at h
      simp only [alErase, if_neg hk, memSizes_cons, ih h]
      omega

theorem mem_alKeys_alErase_of_ne {α : Type} (a k : String) (l : List (String × α))
    (ha : a ∈ alKeys l) (hne : a ≠ k) : a ∈ alKeys (alErase k l) := by
  induction l with
  | nil => simp [alKeys] at ha
  | cons e rest ih =>
    obtain ⟨k', v'⟩ := e
    rw [mem_alKeys_cons] at ha
    by_cases hk : k' = k
    · subst hk
      rcases ha with ha | ha
      · exact absurd ha hne
      · rw [alErase, if_pos rfl]
        exact ha
    · rw [alErase, if_neg hk, mem_alKeys_cons]
      rcases ha with ha | ha
      · exact Or.inl ha
      · exact Or.inr (ih ha)

theorem not_mem_alKeys_alErase {α : Type} (k : String) (l : List (String × α))
    (hnd : (alKeys l).Nodup) : k ∉ alKeys (alErase k l) := by
  induction l with
  | nil => simp [alErase, alKeys]
  | cons e rest ih =>
    obtain ⟨k', v'⟩ := e
    rw [alKeys_cons, List.nodup_cons] at hnd
    by_cases hk : k' = k
    · subst hk
      rw [alErase, if_pos rfl]
      exact hnd.1
    · rw [alErase, if_neg hk]
      rw [alKeys_cons, List.mem_cons]
      rintro (h | h)
      · exact hk h.symm
      · exact ih hnd.2 h

/-! Lemmas on the memory-cache eviction loop. -/

theorem cleanupStep_frame (k : String) (st : CacheManagerState) :
    (cleanupStep k st).max_memory_cache_bytes = st.max_memory_cache_bytes ∧
    (cleanupStep k st).hits = st.hits ∧
    (cleanupStep k st).misses = st.misses ∧
    (cleanupStep k st).disk = st.disk ∧
    (cleanupStep k st).max_size_bytes = st.max_size_bytes ∧
    (cleanupStep k st).cache_cleared_count = st.cache_cleared_count := by
  unfold cleanupStep
  cases alLookup k st.memory_cache <;> exact ⟨rfl, rfl, rfl, rfl, rfl, rfl⟩

theorem cleanupStep_diff (k : String) (st : CacheManagerState) :
    (cleanupStep k st).memory_cache_size - memSizes (cleanupStep k st).memory_cache =
      st.memory_cache_size - memSizes st.memory_cache := by
  unfold cleanupStep
  cases h : alLookup k st.memory_cache with
  | none => rfl
  | some p =>
    simp only
    rw [memSizes_alErase k p st.memory_cache h]
    omega

theorem cleanupStep_cache_keys (k a : String) (st : CacheManagerState)
    (h : a ∈ alKeys (cleanupStep k st).memory_cache) : a ∈ alKeys st.memory_cache := by
  unfold cleanupStep at h
  cases hl : alLookup k st.memory_cache with
  | none => rw [hl] at h; exact h
  | some p =>
    rw [hl] at h
    exact mem_alKeys_of_alErase a k st.memory_cache h

theorem cleanupStep_size_le (k : String) (st : CacheManagerState) :
    (cleanupStep k st).memory_cache_size ≤ st.memory_cache_size := by
  unfold cleanupStep
  cases h : alLookup k st.memory_cache with
  | none => simp
  | some p =>
    simp only
    have := pixSize_nonneg p
    omega

/-- Preservation of the reachable-state invariants by one eviction step. -/
theorem cleanupStep_wf (k : String) (st : CacheManagerState)
    (h1 : st.memory_cache_size = memSizes st.memory_cache)
    (h2 : (alKeys st.memory_cache).Nodup)
    (h3 : (alKeys st.access_times).Nodup)
    (h4 : ∀ a ∈ alKeys st.memory_cache, a ∈ alKeys st.access_times)
    (h5 : ∀ a ∈ alKeys st.access_times, a ∈ alKeys st.memory_cache) :
    (cleanupStep k st).memory_cache_size = memSizes (cleanupStep k st).memory_cache ∧
    (alKeys (cleanupStep k st).memory_cache).Nodup ∧
    (alKeys (cleanupStep k st).access_times).Nodup ∧
    (∀ a ∈ alKeys (cleanupStep k st).memory_cache, a ∈ alKeys (cleanupStep k st).access_times) ∧
    (∀ a ∈ alKeys (cleanupStep k st).access_times, a ∈ alKeys (cleanupStep k st).memory_cache) ∧
    (∀ a ∈ alKeys (cleanupStep k st).memory_cache, a ≠ k) := by
  unfold cleanupStep
  cases hl : alLookup k st.memory_cache with
  | some p =>
    simp only
    refine ⟨?_, ?_, ?_, ?_, ?_, ?_⟩
    · rw [memSizes_alErase k p st.memory_cache hl]; omega
    · exact (alKeys_alErase_sublist k st.memory_cache).nodup h2
    · exact (alKeys_alErase_sublist k st.access_times).nodup h3
    · intro a ha
      have hane : a ≠ k := by
        intro hak
        subst hak
        exact not_mem_alKeys_alErase a st.memory_cache h2 ha
      exact mem_alKeys_alErase_of_ne a k st.access_times
        (h4 a (mem_alKeys_of_alErase a k st.memory_cache ha)) hane
    · intro a ha
      have hane : a ≠ k := by
        intro hak
        subst hak
        exact not_mem_alKeys_alErase a st.access_times h3 ha
      exact mem_alKeys_alErase_of_ne a k st.memory_cache
        (h5 a (mem_alKeys_of_alErase a k st.access_times ha)) hane
    · intro a ha hak
      subst hak
      exact not_mem_alKeys_alErase a st.memory_cache h2 ha
  | none =>
    simp only
    have hk : k ∉ alKeys st.memory_cache := (alLookup_eq_none_iff k st.memory_cache).mp hl
    have hk2 : k ∉ alKeys st.access_times := fun h => hk (h5 k h)
    rw [alErase_of_not_mem k st.access_times hk2]
    refine ⟨h1, h2, h3, h4, h5, ?_⟩
    intro a ha hak
    subst hak
    exact hk ha

/-- Master lemma for the eviction loop: starting from a well-formed state
whose cached keys all occur in the remaining iteration list, the loop ends
with `memory_cache_size ≤ target` and the invariants intact. -/
theorem cleanupLoop_spec (target : Int) (ht : 0 ≤ target) :
    ∀ (l : List (String × Nat)) (st : CacheManagerState),
      st.memory_cache_size = memSizes st.memory_cache →
      (alKeys st.memory_cache).Nodup →
      (alKeys st.access_times).Nodup →
      (∀ a ∈ alKeys st.memory_cache, a ∈ alKeys st.access_times) →
      (∀ a ∈ alKeys st.access_times, a ∈ alKeys st.memory_cache) →
      (∀ a ∈ alKeys st.memory_cache, a ∈ l.map Prod.fst) →
      (cleanupLoop target l st).memory_cache_size ≤ target ∧
      (cleanupLoop target l st).memory_cache_size
        = memSizes (cleanupLoop target l st).memory_cache ∧
      (alKeys (cleanupLoop target l st).memory_cache).Nodup ∧
      (alKeys (cleanupLoop target l st).access_times).Nodup ∧
      (∀ a ∈ alKeys (cleanupLoop target l st).memory_cache,
        a ∈ alKeys (cleanupLoop target l st).access_times) ∧
      (∀ a ∈ alKeys (cleanupLoop target l st).access_times,
        a ∈ alKeys (cleanupLoop target l st).memory_cache) ∧
      (∀ a ∈ alKeys (cleanupLoop target l st).memory_cache, a ∈ alKeys st.memory_cache) := by
  intro l
  induction l with
  | nil =>
    intro st h1 h2 h3 h4 h5 h6
    have hempty : st.memory_cache = [] := by
      cases hc : st.memory_cache with
      | nil => rfl
      | cons e rest =>
        exfalso
        have : e.1 ∈ alKeys st.memory_cache := by
          rw [hc, alKeys_cons]; exact List.mem_cons_self _ _
        simpa using h6 e.1 this
    have hzero : st.memory_cache_size = 0 := by
      rw [h1, hempty, memSizes_nil]
    simp only [cleanupLoop]
    exact ⟨by omega, h1, h2, h3, h4, h5, fun a ha => ha⟩
  | cons e rest ih =>
    intro st h1 h2 h3 h4 h5 h6
    obtain ⟨k, t⟩ := e
    rw [cleanupLoop]
    by_cases hle : st.memory_cache_size ≤ target
    · rw [if_pos hle]
      exact ⟨hle, h1, h2, h3, h4, h5, fun a ha => ha⟩
    · rw [if_neg hle]
      obtain ⟨g1, g2, g3, g4, g5, g6⟩ := cleanupStep_wf k st h1 h2 h3 h4 h5
      have g7 : ∀ a ∈ alKeys (cleanupStep k st).memory_cache, a ∈ rest.map Prod.fst := by
        intro a ha
        have hmem := h6 a (cleanupStep_cache_keys k a st ha)
        simp only [List.map_cons, List.mem_cons] at hmem
        rcases hmem with hmem | hmem
        · exact absurd hmem (g6 a ha)
        · exact hmem
      obtain ⟨c1, c2, c3, c4, c5, c6, c7⟩ := ih (cleanupStep k st) g1 g2 g3 g4 g5 g7
      exact ⟨c1, c2, c3, c4, c5, c6,
        fun a ha => cleanupStep_cache_keys k a st (c7 a ha)⟩

theorem cleanupLoop_frame (target : Int) :
    ∀ (l : List (String × Nat)) (st : CacheManagerState),
      (cleanupLoop target l st).max_memory_cache_bytes = st.max_memory_cache_bytes ∧
      (cleanupLoop target l st).hits = st.hits ∧
      (cleanupLoop target l st).misses = st.misses ∧
      (cleanupLoop target l st).disk = st.disk ∧
      (cleanupLoop target l st).max_size_bytes = st.max_size_bytes ∧
      (cleanupLoop target l st).cache_cleared_count = st.cache_cleared_count := by
  intro l
  induction l with
  | nil => intro st; exact ⟨rfl, rfl, rfl, rfl, rfl, rfl⟩
  | cons e rest ih =>
    intro st
    obtain ⟨k, t⟩ := e
    rw [cleanupLoop]
    by_cases hle : st.memory_cache_size ≤ target
    · rw [if_pos hle]
      exact ⟨rfl, rfl, rfl, rfl, rfl, rfl⟩
    · rw [if_neg hle]
      obtain ⟨f1, f2, f3, f4, f5, f6⟩ := cleanupStep_frame k st
      obtain ⟨i1, i2, i3, i4, i5, i6⟩ := ih (cleanupStep k st)
      exact ⟨i1.trans f1, i2.trans f2, i3.trans f3, i4.trans f4, i5.trans f5, i6.trans f6⟩

theorem cleanupLoop_diff (target : Int) :
    ∀ (l : List (String × Nat)) (st : CacheManagerState),
      (cleanupLoop target l st).memory_cache_size
          - memSizes (cleanupLoop target l st).memory_cache
        = st.memory_cache_size - memSizes st.memory_cache := by
  intro l
  induction l with
  | nil => intro st; rfl
  | cons e rest ih =>
    intro st
    obtain ⟨k, t⟩ := e
    rw [cleanupLoop]
    by_cases hle : st.memory_cache_size ≤ target
    · rw [if_pos hle]
    · rw [if_neg hle]
      rw [ih (cleanupStep k st), cleanupStep_diff]

/-- Invariants of the memory tier that hold in every state reachable from a
fresh `CacheManager` by puts with pairwise-distinct keys: the byte counter
equals the total estimated size of the stored pixmaps, keys are unique, and
the cache and access-time maps track the same key set. -/
def MemWF (st : CacheManagerState) : Prop :=
  st.memory_cache_size = memSizes st.memory_cache ∧
  (alKeys st.memory_cache).Nodup ∧
  (alKeys st.access_times).Nodup ∧
  (∀ a ∈ alKeys st.memory_cache, a ∈ alKeys st.access_times) ∧
  (∀ a ∈ alKeys st.access_times, a ∈ alKeys st.memory_cache)

instance (st : CacheManagerState) : Decidable (MemWF st) := by
  unfold MemWF
  exact inferInstance

theorem perm_sortedByAccess (l : List (String × Nat)) : List.Perm (sortedByAccess l) l :=
  List.perm_insertionSort _ l

theorem mem_map_sortedByAccess (a : String) (l : List (String × Nat)) :
    a ∈ (sortedByAccess l).map Prod.fst ↔ a ∈ alKeys l :=
  ((perm_sortedByAccess l).map Prod.fst).mem_iff

/-- After `_cleanup_memory_cache` on a well-formed state the counter is at
most half the cap, the invariants still hold, no new keys appear, and the
cap is untouched. -/
theorem cleanup_memory_cache_spec (st : CacheManagerState) (hwf : MemWF st) :
    (cleanup_memory_cache st).memory_cache_size
      ≤ ((st.max_memory_cache_bytes / 2 : Nat) : Int) ∧
    MemWF (cleanup_memory_cache st) ∧
    (∀ a ∈ alKeys (cleanup_memory_cache st).memory_cache, a ∈ alKeys st.memory_cache) ∧
    (cleanup_memory_cache st).max_memory_cache_bytes = st.max_memory_cache_bytes := by
  obtain ⟨h1, h2, h3, h4, h5⟩ := hwf
  have h6 : ∀ a ∈ alKeys st.memory_cache, a ∈ (sortedByAccess st.access_times).map Prod.fst := by
    intro a ha
    rw [mem_map_sortedByAccess]
    exact h4 a ha
  have ht : (0 : Int) ≤ ((st.max_memory_cache_bytes / 2 : Nat) : Int) := Int.ofNat_nonneg _
  obtain ⟨c1, c2, c3, c4, c5, c6, c7⟩ :=
    cleanupLoop_spec _ ht (sortedByAccess st.access_times) st h1 h2 h3 h4 h5 h6
  obtain ⟨f1, -, -, -, -, -⟩ := cleanupLoop_frame
    ((st.max_memory_cache_bytes / 2 : Nat) : Int) (sortedByAccess st.access_times) st
  exact ⟨c1, ⟨c2, c3, c4, c5, c6⟩, c7, f1⟩

/-- Storing a fresh key into a well-formed state preserves well-formedness
and appends the key to both maps. -/
theorem memAdd_wf (now : Nat) (key : String) (p : Pix) (st1 : CacheManagerState)
    (hwf : MemWF st1) (hfresh : key ∉ alKeys st1.memory_cache) :
    MemWF { st1 with memory_cache := alUpdate key p st1.memory_cache
                     memory_cache_size := st1.memory_cache_size + pixSize p
                     access_times := alUpdate key now st1.access_times } ∧
    (∀ a ∈ alKeys (alUpdate key p st1.memory_cache),
      a ∈ alKeys st1.memory_cache ∨ a = key) := by
  obtain ⟨h1, h2, h3, h4, h5⟩ := hwf
  have hfresh2 : key ∉ alKeys st1.access_times := fun h => hfresh (h5 key h)
  have e1 : alUpdate key p st1.memory_cache = st1.memory_cache ++ [(key, p)] :=
    alUpdate_of_not_mem key p st1.memory_cache hfresh
  have e2 : alUpdate key now st1.access_times = st1.access_times ++ [(key, now)] :=
    alUpdate_of_not_mem key now st1.access_times hfresh2
  have ek1 : alKeys (alUpdate key p st1.memory_cache) = alKeys st1.memory_cache ++ [key] := by
    rw [e1]; simp [alKeys]
  have ek2 : alKeys (alUpdate key now st1.access_times) = alKeys st1.access_times ++ [key] := by
    rw [e2]; simp [alKeys]
  refine ⟨⟨?_, ?_, ?_, ?_, ?_⟩, ?_⟩
  · simp only
    rw [e1, memSizes_append, memSizes_cons, memSizes_nil, h1]
    ring
  · simp only [ek1]
    rw [List.nodup_append]
    exact ⟨h2, List.nodup_singleton key, fun a ha hb => hfresh ((List.mem_singleton.mp hb) ▸ ha)⟩
  · simp only [ek2]
    rw [List.nodup_append]
    exact ⟨h3, List.nodup_singleton key, fun a ha hb => hfresh2 ((List.mem_singleton.mp hb) ▸ ha)⟩
  · simp only [ek1, ek2]
    intro a ha
    rcases List.mem_append.mp ha with ha | ha
    · exact List.mem_append.mpr (Or.inl (h4 a ha))
    · exact List.mem_append.mpr (Or.inr ha)
  · simp only [ek1, ek2]
    intro a ha
    rcases List.mem_append.mp ha with ha | ha
    · exact List.mem_append.mpr (Or.inl (h5 a ha))
    · exact List.mem_append.mpr (Or.inr ha)
  · intro a ha
    rw [ek1] at ha
    rcases List.mem_append.mp ha with ha | ha
    · exact Or.inl ha
    · exact Or.inr (by simpa using ha)

/-- One `put_to_memory` call with a key not currently cached, from a
well-formed state within the cap, lands back within the cap. -/
theorem put_to_memory_fresh (now : Nat) (key : String) (p : Pix) (st : CacheManagerState)
    (hwf : MemWF st)
    (hcap : st.memory_cache_size ≤ (st.max_memory_cache_bytes : Int))
    (hfresh : key ∉ alKeys st.memory_cache) :
    MemWF (put_to_memory now key p st) ∧
    (put_to_memory now key p st).memory_cache_size
      ≤ ((put_to_memory now key p st).max_memory_cache_bytes : Int) ∧
    (put_to_memory now key p st).max_memory_cache_bytes = st.max_memory_cache_bytes ∧
    (∀ a ∈ alKeys (put_to_memory now key p st).memory_cache,
      a ∈ alKeys st.memory_cache ∨ a = key) := by
  have hhalf : st.max_memory_cache_bytes / 2 + st.max_memory_cache_bytes / 2
      ≤ st.max_memory_cache_bytes := by omega
  unfold put_to_memory
  by_cases hov : st.memory_cache_size + pixSize p > (st.max_memory_cache_bytes : Int)
  · simp only [if_pos hov]
    obtain ⟨c1, c2, c3, c4⟩ := cleanup_memory_cache_spec st hwf
    have hfresh1 : key ∉ alKeys (cleanup_memory_cache st).memory_cache :=
      fun h => hfresh (c3 key h)
    by_cases hbig : pixSize p
        > (((cleanup_memory_cache st).max_memory_cache_bytes / 2 : Nat) : Int)
    · simp only [if_pos hbig]
      refine ⟨c2, ?_, c4, fun a ha => Or.inl (c3 a ha)⟩
      rw [c4]
      have : ((st.max_memory_cache_bytes / 2 : Nat) : Int)
          ≤ (st.max_memory_cache_bytes : Int) := by
        exact_mod_cast Nat.div_le_self _ _
      omega
    · simp only [if_neg hbig]
      obtain ⟨w1, w2⟩ := memAdd_wf now key p (cleanup_memory_cache st) c2 hfresh1
      refine ⟨w1, ?_, c4, fun a ha => ?_⟩
      · dsimp only
        rw [c4] at hbig ⊢
        push_neg at hbig
        have : ((st.max_memory_cache_bytes / 2 : Nat) : Int)
              + ((st.max_memory_cache_bytes / 2 : Nat) : Int)
            ≤ (st.max_memory_cache_bytes : Int) := by exact_mod_cast hhalf
        omega
      · rcases w2 a ha with h | h
        · exact Or.inl (c3 a h)
        · exact Or.inr h
  · simp only [if_neg hov]
    push_neg at hov
    by_cases hbig : pixSize p > ((st.max_memory_cache_bytes / 2 : Nat) : Int)
    · simp only [if_pos hbig]
      exact ⟨hwf, hcap, by trivial, fun a ha => Or.inl ha⟩
    · simp only [if_neg hbig]
      obtain ⟨w1, w2⟩ := memAdd_wf now key p st hwf hfresh
      exact ⟨w1, by simpa using hov, by trivial, w2⟩

/-- Folding a list of `put_to_memory` calls `(now, key, pixmap)`. -/
def applyPuts (ops : List (Nat × String × Pix)) (st : CacheManagerState) : CacheManagerState :=
  ops.foldl (fun s op => put_to_memory op.1 op.2.1 op.2.2 s) st

theorem applyPuts_spec :
    ∀ (ops : List (Nat × String × Pix)) (st : CacheManagerState),
      MemWF st →
      st.memory_cache_size ≤ (st.max_memory_cache_bytes : Int) →
      (ops.map (fun op => op.2.1)).Nodup →
      (∀ op ∈ ops, op.2.1 ∉ alKeys st.memory_cache) →
      MemWF (applyPuts ops st) ∧
      (applyPuts ops st).memory_cache_size
        ≤ ((applyPuts ops st).max_memory_cache_bytes : Int) ∧
      (applyPuts ops st).max_memory_cache_bytes = st.max_memory_cache_bytes ∧
      (∀ a ∈ alKeys (applyPuts ops st).memory_cache,
        a ∈ alKeys st.memory_cache ∨ a ∈ ops.map (fun op => op.2.1)) := by
  intro ops
  induction ops with
  | nil =>
    intro st hwf hcap hnd hkeys
    exact ⟨hwf, by simpa using hcap, rfl, fun a ha => Or.inl ha⟩
  | cons op rest ih =>
    intro st hwf hcap hnd hkeys
    obtain ⟨p1, p2, p3, p4⟩ := put_to_memory_fresh op.1 op.2.1 op.2.2 st hwf hcap
      (hkeys op (List.mem_cons_self _ _))
    rw [List.map_cons, List.nodup_cons] at hnd
    have hkeys2 : ∀ op2 ∈ rest, op2.2.1 ∉ alKeys (put_to_memory op.1 op.2.1 op.2.2 st).memory_cache := by
      intro op2 hop2 hmem
      rcases p4 op2.2.1 hmem with h | h
      · exact hkeys op2 (List.mem_cons_of_mem _ hop2) h
      · exact hnd.1 (h ▸ List.mem_map_of_mem (fun o => o.2.1) hop2)
    have hcap2 : (put_to_memory op.1 op.2.1 op.2.2 st).memory_cache_size
        ≤ ((put_to_memory op.1 op.2.1 op.2.2 st).max_memory_cache_bytes : Int) := p2
    obtain ⟨q1, q2, q3, q4⟩ := ih (put_to_memory op.1 op.2.1 op.2.2 st) p1 hcap2 hnd.2 hkeys2
    refine ⟨q1, q2, ?_, ?_⟩
    · show (applyPuts (op :: rest) st).max_memory_cache_bytes = st.max_memory_cache_bytes
      calc (applyPuts (op :: rest) st).max_memory_cache_bytes
          = (put_to_memory op.1 op.2.1 op.2.2 st).max_memory_cache_bytes := q3
        _ = st.max_memory_cache_bytes := p3
    · intro a ha
      rcases q4 a ha with h | h
      · rcases p4 a h with h2 | h2
        · exact Or.inl h2
        · exact Or.inr (by simp [h2])
      · exact Or.inr (List.mem_cons_of_mem _ h)

theorem MemWF_init (d m : Nat) : MemWF (CacheManagerState.init d m) := by
  refine ⟨rfl, ?_, ?_, ?_, ?_⟩ <;> simp [CacheManagerState.init, alKeys]

theorem cleanup_memory_cache_max (st : CacheManagerState) :
    (cleanup_memory_cache st).max_memory_cache_bytes = st.max_memory_cache_bytes :=
  (cleanupLoop_frame _ _ st).1

theorem cleanup_memory_cache_diff (st : CacheManagerState) :
    (cleanup_memory_cache st).memory_cache_size
        - memSizes (cleanup_memory_cache st).memory_cache
      = st.memory_cache_size - memSizes st.memory_cache :=
  cleanupLoop_diff _ _ st

/-- C1 (amended): the claimed cap invariant holds for every sequence of
`put_to_memory` calls whose keys are pairwise distinct (the unrestricted
claim fails because re-putting a stored key double-counts, see the
counterexample): (1) starting from a fresh cache, after every call
`memory_cache_size ≤ max_memory_cache_bytes`; (2) on any well-formed state,
the eviction pass `_cleanup_memory_cache` — which walks entries in order of
least-recent access — ends with the counter at most 50% of the cap;
(3) a single item whose estimated size exceeds 50% of the cap is refused:
the call performs at most the eviction pass and stores nothing. -/
theorem put_to_memory_cap_invariant
    (capDisk capMem : Nat) (ops : List (Nat × String × Pix))
    (hnd : (ops.map (fun op => op.2.1)).Nodup) :
    (∀ n : Nat,
      (applyPuts (ops.take n) (CacheManagerState.init capDisk capMem)).memory_cache_size
        ≤ (capMem : Int)) ∧
    (∀ st : CacheManagerState, MemWF st →
      (cleanup_memory_cache st).memory_cache_size
        ≤ ((st.max_memory_cache_bytes / 2 : Nat) : Int)) ∧
    (∀ (now : Nat) (key : String) (p : Pix) (st : CacheManagerState),
      pixSize p > ((st.max_memory_cache_bytes / 2 : Nat) : Int) →
      put_to_memory now key p st =
        if st.memory_cache_size + pixSize p > (st.max_memory_cache_bytes : Int)
        then cleanup_memory_cache st else st) := by
  refine ⟨?_, ?_, ?_⟩
  · intro n
    have hnd2 : ((ops.take n).map (fun op => op.2.1)).Nodup := by
      rw [List.map_take]
      exact (List.take_sublist n _).nodup hnd
    obtain ⟨-, h2, h3, -⟩ := applyPuts_spec (ops.take n) (CacheManagerState.init capDisk capMem)
      (MemWF_init capDisk capMem) (by simp [CacheManagerState.init]) hnd2
      (by intro op hop; simp [CacheManagerState.init, alKeys])
    rw [h3] at h2
    simpa [CacheManagerState.init] using h2
  · intro st hwf
    exact (cleanup_memory_cache_spec st hwf).1
  · intro now key p st hbig
    unfold put_to_memory
    by_cases hov : st.memory_cache_size + pixSize p > (st.max_memory_cache_bytes : Int)
    · simp only [if_pos hov]
      rw [cleanup_memory_cache_max] at *
      rw [if_pos hbig]
    · simp only [if_neg hov]
      rw [if_pos hbig]

/-- Witness instantiating `put_to_memory_cap_invariant` on a concrete
two-put trace with distinct keys under a 1 MiB cap. -/
theorem put_to_memory_cap_invariant_witness :
    (applyPuts ([(0, "a", ⟨100, 100⟩), (1, "b", ⟨50, 50⟩)].take 2)
        (CacheManagerState.init 1048576 1048576)).memory_cache_size ≤ ((1048576 : Nat) : Int) :=
  (put_to_memory_cap_invariant 1048576 1048576
    [(0, "a", ⟨100, 100⟩), (1, "b", ⟨50, 50⟩)] (by decide)).1 2

/-- One memory-tier operation of `CacheManager`: `put_to_memory`,
`get_from_memory`, the eviction pass, or `clear_all_cache`. -/
inductive MemOp where
  | put (now : Nat) (key : String) (p : Pix)
  | get (now : Nat) (key : String)
  | evict
  | clear

/-- Interpretation of one memory-tier operation. -/
def applyMemOp (st : CacheManagerState) : MemOp → CacheManagerState
  | MemOp.put now key p => put_to_memory now key p st
  | MemOp.get now key => (get_from_memory now key st).2
  | MemOp.evict => cleanup_memory_cache st
  | MemOp.clear => clear_all_cache st

/-- Folding a sequence of memory-tier operations. -/
def applyMemOps (ops : List MemOp) (st : CacheManagerState) : CacheManagerState :=
  ops.foldl applyMemOp st

theorem applyMemOp_overcount (st : CacheManagerState) (op : MemOp)
    (h : memSizes st.memory_cache ≤ st.memory_cache_size) :
    memSizes (applyMemOp st op).memory_cache ≤ (applyMemOp st op).memory_cache_size := by
  cases op with
  | put now key p =>
    show memSizes (put_to_memory now key p st).memory_cache
        ≤ (put_to_memory now key p st).memory_cache_size
    unfold put_to_memory
    have hdiff := cleanup_memory_cache_diff st
    by_cases hov : st.memory_cache_size + pixSize p > (st.max_memory_cache_bytes : Int)
    · simp only [if_pos hov]
      by_cases hbig : pixSize p
          > (((cleanup_memory_cache st).max_memory_cache_bytes / 2 : Nat) : Int)
      · simp only [if_pos hbig]
        omega
      · simp only [if_neg hbig]
        have := memSizes_alUpdate_le key p (cleanup_memory_cache st).memory_cache
        omega
    · simp only [if_neg hov]
      by_cases hbig : pixSize p > ((st.max_memory_cache_bytes / 2 : Nat) : Int)
      · simp only [if_pos hbig]
        exact h
      · simp only [if_neg hbig]
        have := memSizes_alUpdate_le key p st.memory_cache
        omega
  | get now key =>
    show memSizes ((get_from_memory now key st).2).memory_cache
        ≤ ((get_from_memory now key st).2).memory_cache_size
    unfold get_from_memory
    cases alLookup key st.memory_cache <;> simpa using h
  | evict =>
    have hdiff := cleanup_memory_cache_diff st
    show memSizes (cleanup_memory_cache st).memory_cache
        ≤ (cleanup_memory_cache st).memory_cache_size
    omega
  | clear =>
    show memSizes (clear_all_cache st).memory_cache ≤ (clear_all_cache st).memory_cache_size
    simp [clear_all_cache, memSizes]

theorem applyMemOps_overcount :
    ∀ (ops : List MemOp) (st : CacheManagerState),
      memSizes st.memory_cache ≤ st.memory_cache_size →
      memSizes (applyMemOps ops st).memory_cache ≤ (applyMemOps ops st).memory_cache_size := by
  intro ops
  induction ops with
  | nil => intro st h; exact h
  | cons op rest ih =>
    intro st h
    exact ih (applyMemOp st op) (applyMemOp_overcount st op h)

/-- C9: `put_to_memory` on a key already present replaces the stored bitmap
but adds the full estimated size of the new bitmap to `memory_cache_size`
without subtracting the replaced entry (part 1, stated in the
cleanup-free, non-refused case so that the addition is isolated);
consequently, after every sequence of put / get / eviction / clear
operations from a fresh cache, `memory_cache_size` is at least the total
estimated size of the entries actually present (part 2). -/
theorem put_to_memory_overcount_invariant :
    (∀ (now : Nat) (key : String) (p q : Pix) (st : CacheManagerState),
      alLookup key st.memory_cache = some q →
      st.memory_cache_size + pixSize p ≤ (st.max_memory_cache_bytes : Int) →
      pixSize p ≤ ((st.max_memory_cache_bytes / 2 : Nat) : Int) →
      (put_to_memory now key p st).memory_cache_size
          = st.memory_cache_size + pixSize p ∧
      alLookup key (put_to_memory now key p st).memory_cache = some p) ∧
    (∀ (ops : List MemOp) (capDisk capMem : Nat),
      memSizes (applyMemOps ops (CacheManagerState.init capDisk capMem)).memory_cache
        ≤ (applyMemOps ops (CacheManagerState.init capDisk capMem)).memory_cache_size) := by
  constructor
  · intro now key p q st hlk hno hsz
    unfold put_to_memory
    have hov : ¬ st.memory_cache_size + pixSize p > (st.max_memory_cache_bytes : Int) := by
      omega
    simp only [if_neg hov]
    have hbig : ¬ pixSize p > ((st.max_memory_cache_bytes / 2 : Nat) : Int) := by omega
    simp only [if_neg hbig]
    exact ⟨by trivial, alLookup_alUpdate_self key p st.memory_cache⟩
  · intro ops capD capM
    exact applyMemOps_overcount ops (CacheManagerState.init capD capM) (by simp [CacheManagerState.init, memSizes])

/-- Witness instantiating `put_to_memory_overcount_invariant`: re-putting
key `k` (64 estimated bytes cached) with a same-sized pixmap doubles the
counter to 128 while one entry of 64 bytes remains, and a concrete
operation sequence satisfies the inequality. -/
theorem put_to_memory_overcount_invariant_witness :
    ((put_to_memory 1 "k" ⟨4, 4⟩
        { CacheManagerState.init 1000000 1000000 with
            memory_cache := [("k", ⟨4, 4⟩)]
            memory_cache_size := 64
            access_times := [("k", 0)] }).memory_cache_size = 64 + pixSize ⟨4, 4⟩ ∧
      alLookup "k" (put_to_memory 1 "k" ⟨4, 4⟩
        { CacheManagerState.init 1000000 1000000 with
            memory_cache := [("k", ⟨4, 4⟩)]
            memory_cache_size := 64
            access_times := [("k", 0)] }).memory_cache = some ⟨4, 4⟩) ∧
    memSizes (applyMemOps [MemOp.put 0 "a" ⟨1, 1⟩, MemOp.put 1 "a" ⟨1, 1⟩]
        (CacheManagerState.init 5 5)).memory_cache
      ≤ (applyMemOps [MemOp.put 0 "a" ⟨1, 1⟩, MemOp.put 1 "a" ⟨1, 1⟩]
        (CacheManagerState.init 5 5)).memory_cache_size :=
  ⟨put_to_memory_overcount_invariant.1 1 "k" ⟨4, 4⟩ ⟨4, 4⟩ _
      (by decide) (by decide) (by decide),
    put_to_memory_overcount_invariant.2 [MemOp.put 0 "a" ⟨1, 1⟩, MemOp.put 1 "a" ⟨1, 1⟩] 5 5⟩

/-! Lemmas on the disk sweep. -/

theorem diskTotal_nil : diskTotal [] = 0 := rfl

theorem diskTotal_cons (f : String × Nat × Bytes) (l : List (String × Nat × Bytes)) :
    diskTotal (f :: l) = fileSize f + diskTotal l := by
  simp [diskTotal]

theorem withinDiskTarget_zero (cap : Nat) : withinDiskTarget cap 0 := by
  unfold withinDiskTarget
  push_cast
  positivity

theorem perm_sortedByMtime (l : List (String × Nat × Bytes)) :
    List.Perm (sortedByMtime l) l :=
  List.perm_insertionSort _ l

theorem diskTotal_sortedByMtime (l : List (String × Nat × Bytes)) :
    diskTotal (sortedByMtime l) = diskTotal l :=
  ((perm_sortedByMtime l).map fileSize).sum_eq

/-- The deletion loop deletes exactly the shortest prefix of the sorted file
list whose removal brings the total within the 80% target. -/
theorem sweepKeys_spec (cap : Nat) :
    ∀ l : List (String × Nat × Bytes),
      ∃ n, n ≤ l.length ∧
        sweepKeys cap l (diskTotal l) = (l.take n).map Prod.fst ∧
        withinDiskTarget cap (diskTotal (l.drop n)) ∧
        ∀ j, j < n → ¬ withinDiskTarget cap (diskTotal (l.drop j)) := by
  intro l
  induction l with
  | nil =>
    refine ⟨0, Nat.le_refl 0, rfl, ?_, ?_⟩
    · simpa [diskTotal_nil] using withinDiskTarget_zero cap
    · intro j hj
      omega
  | cons f rest ih =>
    by_cases hw : withinDiskTarget cap (diskTotal (f :: rest))
    · refine ⟨0, Nat.zero_le _, ?_, ?_, ?_⟩
      · rw [sweepKeys, if_pos hw]
        rfl
      · simpa using hw
      · intro j hj
        omega
    · obtain ⟨n, hn, he, hwn, hmin⟩ := ih
      refine ⟨n + 1, by simpa using Nat.succ_le_succ hn, ?_, ?_, ?_⟩
      · rw [sweepKeys, if_neg hw]
        have hsub : diskTotal (f :: rest) - fileSize f = diskTotal rest := by
          rw [diskTotal_cons]
          omega
        rw [hsub, he, List.take_succ_cons, List.map_cons]
      · rw [List.drop_succ_cons]
        exact hwn
      · intro j hj
        cases j with
        | zero => simpa using hw
        | succ j2 =>
          rw [List.drop_succ_cons]
          exact hmin j2 (by omega)

/-- C6: `cleanup_old_files` (with every deletion succeeding, as modelled)
deletes cache files oldest-mtime-first — the deleted set is the shortest
prefix of the mtime-sorted file list whose removal suffices, so a newer
file is deleted only when deleting all older files was insufficient — until
the remaining `*.cache` total is at most `0.8 * max_size_bytes`, and then
emits the `cache_cleared` event. -/
theorem cleanup_old_files_spec (st : CacheManagerState)
    (hnd : (st.disk.map Prod.fst).Nodup) :
    withinDiskTarget st.max_size_bytes (diskTotal (cleanup_old_files st).disk) ∧
    (∃ n, n ≤ (sortedByMtime st.disk).length ∧
      (cleanup_old_files st).disk = st.disk.filter
        (fun f => !((((sortedByMtime st.disk).take n).map Prod.fst).contains f.1)) ∧
      diskTotal (cleanup_old_files st).disk = diskTotal ((sortedByMtime st.disk).drop n) ∧
      (∀ j, j < n → ¬ withinDiskTarget st.max_size_bytes
        (diskTotal ((sortedByMtime st.disk).drop j)))) ∧
    (cleanup_old_files st).cache_cleared_count = st.cache_cleared_count + 1 := by
  obtain ⟨n, hn, he, hw, hmin⟩ := sweepKeys_spec st.max_size_bytes (sortedByMtime st.disk)
  rw [diskTotal_sortedByMtime] at he
  have hdisk : (cleanup_old_files st).disk = st.disk.filter
      (fun f => !((((sortedByMtime st.disk).take n).map Prod.fst).contains f.1)) := by
    show (st.disk.filter
        (fun f => !((sweepKeys st.max_size_bytes (sortedByMtime st.disk)
          (diskTotal st.disk)).contains f.1))) = _
    rw [he]
  have hndsorted : ((sortedByMtime st.disk).map Prod.fst).Nodup :=
    (((perm_sortedByMtime st.disk).map Prod.fst).nodup_iff).mpr hnd
  have hsplit := List.take_append_drop n (sortedByMtime st.disk)
  have hdisj : ∀ f ∈ (sortedByMtime st.disk).drop n,
      f.1 ∉ ((sortedByMtime st.disk).take n).map Prod.fst := by
    intro f hf hmem
    have : ((sortedByMtime st.disk).map Prod.fst)
        = ((sortedByMtime st.disk).take n).map Prod.fst
          ++ ((sortedByMtime st.disk).drop n).map Prod.fst := by
      rw [← List.map_append, hsplit]
    rw [this, List.nodup_append] at hndsorted
    exact hndsorted.2.2 hmem (List.mem_map_of_mem Prod.fst hf)
  have h1 : ((sortedByMtime st.disk).take n).filter
      (fun f => !((((sortedByMtime st.disk).take n).map Prod.fst).contains f.1)) = [] := by
    apply List.filter_eq_nil_iff.mpr
    intro f hf
    simp only [Bool.not_eq_true', Bool.not_eq_false]
    exact List.elem_iff.mpr (List.mem_map_of_mem Prod.fst hf)
  have h2 : ((sortedByMtime st.disk).drop n).filter
      (fun f => !((((sortedByMtime st.disk).take n).map Prod.fst).contains f.1))
      = (sortedByMtime st.disk).drop n := by
    apply List.filter_eq_self.mpr
    intro f hf
    simp only [Bool.not_eq_true']
    apply Bool.eq_false_iff.mpr
    intro hcontra
    exact absurd (List.elem_iff.mp hcontra) (hdisj f hf)
  have hfiltersorted : (sortedByMtime st.disk).filter
      (fun f => !((((sortedByMtime st.disk).take n).map Prod.fst).contains f.1))
      = (sortedByMtime st.disk).drop n := by
    have hstep : (sortedByMtime st.disk).filter
        (fun f => !((((sortedByMtime st.disk).take n).map Prod.fst).contains f.1))
        = ((sortedByMtime st.disk).take n ++ (sortedByMtime st.disk).drop n).filter
            (fun f => !((((sortedByMtime st.disk).take n).map Prod.fst).contains f.1)) := by
      rw [hsplit]
    rw [hstep, List.filter_append, h1, h2, List.nil_append]
  have htotal : diskTotal (cleanup_old_files st).disk
      = diskTotal ((sortedByMtime st.disk).drop n) := by
    rw [hdisk, ← hfiltersorted]
    exact (((perm_sortedByMtime st.disk).filter _).map fileSize).sum_eq.symm
  refine ⟨?_, ⟨n, hn, hdisk, htotal, hmin⟩, rfl⟩
  rw [htotal]
  exact hw

/-- A concrete disk state: cap 10 bytes, three files of 4 bytes with
mtimes 3, 1, 2 listed out of order. -/
def diskDemo : CacheManagerState :=
  { CacheManagerState.init 10 1048576 with
      disk := [("f3", 3, [1, 1, 1, 1]), ("f1", 1, [2, 2, 2, 2]), ("f2", 2, [3, 3, 3, 3])] }

/-- Witness instantiating `cleanup_old_files_spec` on `diskDemo`. -/
theorem cleanup_old_files_spec_witness :
    withinDiskTarget diskDemo.max_size_bytes (diskTotal (cleanup_old_files diskDemo).disk) ∧
    (cleanup_old_files diskDemo).cache_cleared_count = diskDemo.cache_cleared_count + 1 := by
  have h := cleanup_old_files_spec diskDemo (by decide)
  exact ⟨h.1, h.2.2⟩

/-! Lemmas on the worker run. -/

theorem get_from_memory_disk (now : Nat) (k : String) (st : CacheManagerState) :
    ((get_from_memory now k st).2).disk = st.disk := by
  unfold get_from_memory
  cases alLookup k st.memory_cache <;> rfl

theorem get_from_memory_mem (now : Nat) (k : String) (st : CacheManagerState) :
    ((get_from_memory now k st).2).memory_cache = st.memory_cache := by
  unfold get_from_memory
  cases alLookup k st.memory_cache <;> rfl

theorem put_to_memory_disk (now : Nat) (k : String) (p : Pix) (st : CacheManagerState) :
    (put_to_memory now k p st).disk = st.disk := by
  unfold put_to_memory
  by_cases hov : st.memory_cache_size + pixSize p > (st.max_memory_cache_bytes : Int)
  · simp only [if_pos hov]
    have hframe := (cleanupLoop_frame ((st.max_memory_cache_bytes / 2 : Nat) : Int)
      (sortedByAccess st.access_times) st).2.2.2.1
    by_cases hbig : pixSize p
        > (((cleanup_memory_cache st).max_memory_cache_bytes / 2 : Nat) : Int)
    · simp only [if_pos hbig]
      exact hframe
    · simp only [if_neg hbig]
      exact hframe
  · simp only [if_neg hov]
    by_cases hbig : pixSize p > ((st.max_memory_cache_bytes / 2 : Nat) : Int)
    · simp only [if_pos hbig]
    · simp only [if_neg hbig]

theorem diskData_alUpdate_same (k : String) (now : Nat) (md : Nat × Bytes)
    (l : List (String × Nat × Bytes)) (h : alLookup k l = some md) :
    (alUpdate k (now, md.2) l).map (fun f => (f.1, f.2.2))
      = l.map (fun f => (f.1, f.2.2)) := by
  induction l with
  | nil => simp [alLookup] at h
  | cons e rest ih =>
    obtain ⟨k2, mt, data⟩ := e
    by_cases hk : k2 = k
    · simp only [alLookup, if_pos hk] at h
      obtain rfl : (mt, data) = md := by injection h
      simp [alUpdate, hk]
    · simp only [alLookup, if_neg hk] at h
      simp [alUpdate, hk, ih h]

theorem get_from_disk_diskData (now : Nat) (k : String) (st : CacheManagerState) :
    diskData ((get_from_disk now k st).2) = diskData st := by
  unfold get_from_disk diskData
  cases h : alLookup k st.disk with
  | none => rfl
  | some md => exact diskData_alUpdate_same k now md st.disk h

theorem workerFromNetwork_diskData (decode : Bytes → Option Pix)
    (scaleFn : Pix → Nat × Nat → Pix) (now : Nat) (url : String)
    (size? : Option (Nat × Nat)) (net : Option Bytes) (st : CacheManagerState)
    (h : diskData (workerFromNetwork decode scaleFn now url size? net st).1 ≠ diskData st) :
    ∃ d pix, net = some d ∧ decode d = some pix := by
  cases net with
  | none => exact absurd rfl h
  | some d =>
    cases hdec : decode d with
    | none =>
      rw [workerFromNetwork, hdec] at h
      exact absurd rfl h
    | some pix => exact ⟨d, pix, rfl, hdec⟩

theorem workerFromNetwork_memory (decode : Bytes → Option Pix)
    (scaleFn : Pix → Nat × Nat → Pix) (now : Nat) (url : String)
    (size? : Option (Nat × Nat)) (net : Option Bytes) (st : CacheManagerState)
    (h : (workerFromNetwork decode scaleFn now url size? net st).1.memory_cache
      ≠ st.memory_cache) :
    ∃ d pix, net = some d ∧ decode d = some pix := by
  cases net with
  | none => exact absurd rfl h
  | some d =>
    cases hdec : decode d with
    | none =>
      rw [workerFromNetwork, hdec] at h
      exact absurd rfl h
    | some pix => exact ⟨d, pix, rfl, hdec⟩

theorem workerFromDisk_diskData (decode : Bytes → Option Pix)
    (scaleFn : Pix → Nat × Nat → Pix) (now : Nat) (url : String)
    (size? : Option (Nat × Nat)) (net : Option Bytes) (dd : Option Bytes)
    (st : CacheManagerState)
    (h : diskData (workerFromDisk decode scaleFn now url size? net dd st).1 ≠ diskData st) :
    ∃ d pix, net = some d ∧ decode d = some pix := by
  cases dd with
  | none => exact workerFromNetwork_diskData decode scaleFn now url size? net st h
  | some data =>
    cases hdec : decode data with
    | none =>
      rw [workerFromDisk, hdec] at h
      exact workerFromNetwork_diskData decode scaleFn now url size? net st h
    | some pix =>
      exfalso
      apply h
      rw [workerFromDisk, hdec]
      cases size? with
      | none => simp [diskData, put_to_memory_disk]
      | some sz => simp [diskData, put_to_memory_disk]

/-- On a state where both memory keys and the disk key miss, the worker run
is the network path on the state with the miss counters bumped. -/
theorem workerRun_miss (decode : Bytes → Option Pix) (scaleFn : Pix → Nat × Nat → Pix)
    (now : Nat) (url : String) (size? : Option (Nat × Nat)) (net : Option Bytes)
    (st : CacheManagerState)
    (hv : ∀ sz, size? = some sz →
      alLookup (get_cache_key (variant_url url sz)) st.memory_cache = none)
    (hb : alLookup (get_cache_key url) st.memory_cache = none)
    (hd : alLookup (get_cache_key url) st.disk = none) :
    workerRun decode scaleFn now url size? net st =
      workerFromNetwork decode scaleFn now url size? net
        { st with misses := st.misses + (match size? with | some _ => 2 | none => 1) } := by
  cases size? with
  | none =>
    unfold workerRun
    simp only [get_from_memory, hb, get_from_disk]
    simp only [hd]
    rw [workerFromDisk]
  | some sz =>
    unfold workerRun
    simp only [get_from_memory, hv sz rfl, hb, get_from_disk]
    simp only [hd]
    rw [workerFromDisk]

/-- C7: if the downloaded bytes fail to decode, the worker emits
`load_failed` for the URL and writes to neither cache tier (part 1, on the
network path: both memory keys and the disk key miss); moreover, over all
inputs the persisted disk data changes only after a successful decode of
downloaded bytes (part 2), and on the full-miss path the memory cache map
changes only after a successful decode (part 3). -/
theorem worker_decode_failure_spec (decode : Bytes → Option Pix)
    (scaleFn : Pix → Nat × Nat → Pix) (now : Nat) (url : String)
    (size? : Option (Nat × Nat)) (data : Bytes) (st : CacheManagerState)
    (hv : ∀ sz, size? = some sz →
      alLookup (get_cache_key (variant_url url sz)) st.memory_cache = none)
    (hb : alLookup (get_cache_key url) st.memory_cache = none)
    (hd : alLookup (get_cache_key url) st.disk = none)
    (hdec : decode data = none) :
    ((workerRun decode scaleFn now url size? (some data) st).2 = [WEvent.failed url] ∧
     (workerRun decode scaleFn now url size? (some data) st).1.memory_cache
        = st.memory_cache ∧
     (workerRun decode scaleFn now url size? (some data) st).1.disk = st.disk) ∧
    (∀ (net : Option Bytes) (st2 : CacheManagerState),
      diskData (workerRun decode scaleFn now url size? net st2).1 ≠ diskData st2 →
      ∃ d pix, net = some d ∧ decode d = some pix) ∧
    (∀ (net : Option Bytes) (st2 : CacheManagerState),
      (∀ sz, size? = some sz →
        alLookup (get_cache_key (variant_url url sz)) st2.memory_cache = none) →
      alLookup (get_cache_key url) st2.memory_cache = none →
      alLookup (get_cache_key url) st2.disk = none →
      (workerRun decode scaleFn now url size? net st2).1.memory_cache
        ≠ st2.memory_cache →
      ∃ d pix, net = some d ∧ decode d = some pix) := by
  refine ⟨?_, ?_, ?_⟩
  · rw [workerRun_miss decode scaleFn now url size? (some data) st hv hb hd]
    rw [workerFromNetwork, hdec]
    exact ⟨rfl, rfl, rfl⟩
  · intro net st2 hne
    unfold workerRun at hne
    cases hsz : size? with
    | none =>
      simp only [hsz] at hne
      cases hmb : alLookup (get_cache_key url) st2.memory_cache with
      | some p =>
        simp only [get_from_memory, hmb] at hne
        exact absurd rfl hne
      | none =>
        simp only [get_from_memory, hmb] at hne
        have heq : diskData ((get_from_disk now (get_cache_key url)
            { st2 with misses := st2.misses + 1 }).2) = diskData st2 := by
          rw [get_from_disk_diskData]
          rfl
        refine workerFromDisk_diskData decode scaleFn now url none net
          ((get_from_disk now (get_cache_key url) { st2 with misses := st2.misses + 1 }).1)
          ((get_from_disk now (get_cache_key url) { st2 with misses := st2.misses + 1 }).2) ?_
        rw [heq]
        exact hne
    | some sz =>
      simp only [hsz] at hne
      cases hv1 : alLookup (get_cache_key (variant_url url sz)) st2.memory_cache with
      | some p =>
        simp only [get_from_memory, hv1] at hne
        by_cases hdim : p.width ≠ sz.1 ∨ p.height ≠ sz.2
        · rw [if_pos hdim] at hne
          apply absurd _ hne
          show diskData _ = diskData st2
          unfold diskData
          rw [put_to_memory_disk]
        · rw [if_neg hdim] at hne
          exact absurd rfl hne
      | none =>
        simp only [get_from_memory, hv1] at hne
        cases hb1 : alLookup (get_cache_key url) st2.memory_cache with
        | some p =>
          simp only [hb1] at hne
          by_cases hdim : p.width ≠ sz.1 ∨ p.height ≠ sz.2
          · rw [if_pos hdim] at hne
            apply absurd _ hne
            show diskData _ = diskData st2
            unfold diskData
            rw [put_to_memory_disk]
          · rw [if_neg hdim] at hne
            exact absurd rfl hne
        | none =>
          simp only [hb1] at hne
          have heq : diskData ((get_from_disk now (get_cache_key url)
              { st2 with misses := st2.misses + 1 + 1 }).2) = diskData st2 := by
            rw [get_from_disk_diskData]
            rfl
          refine workerFromDisk_diskData decode scaleFn now url (some sz) net
            ((get_from_disk now (get_cache_key url) { st2 with misses := st2.misses + 1 + 1 }).1)
            ((get_from_disk now (get_cache_key url) { st2 with misses := st2.misses + 1 + 1 }).2) ?_
          rw [heq]
          exact hne
  · intro net st2 hv2 hb2 hd2 hne
    rw [workerRun_miss decode scaleFn now url size? net st2 hv2 hb2 hd2] at hne
    exact workerFromNetwork_memory decode scaleFn now url size? net _ (by
      intro hcontra
      apply hne
      rw [hcontra])

/-- Witness instantiating `worker_decode_failure_spec`: empty caches, a
one-byte network response, and a decoder that always fails: the run emits
exactly the `load_failed` event. -/
theorem worker_decode_failure_spec_witness :
    (workerRun (fun _ => none) (fun p _ => p) 0 "u" none (some [1])
        (CacheManagerState.init 10 10)).2 = [WEvent.failed "u"] :=
  ((worker_decode_failure_spec (fun _ => none) (fun p _ => p) 0 "u" none [1]
      (CacheManagerState.init 10 10) (fun sz h => by cases h) rfl rfl rfl).1).1

/-- C3 (amended): at an eligible controller tick (at least 500 ms since the
last adjustment), whenever the pending backlog exceeds 20 and the
active-worker count is at least the current `max_concurrent` (the code
condition — not backlog > 2x active workers), `max_concurrent` becomes
`max 2 (current - 1)`: decreased by exactly 1 whenever it was above 2, and
never brought below the floor of 2. -/
theorem controller_decrease (now : Nat) (st : ThumbState)
    (htick : (now : Int) - st.last_adjust_ms ≥ 500)
    (hpend : (st.loader.pending_requests.length : Int) > 20)
    (hact : (st.loader.active_workers.length : Int) ≥ st.loader.max_concurrent) :
    (update_stats now st).loader.max_concurrent = max 2 (st.loader.max_concurrent - 1) ∧
    2 ≤ (update_stats now st).loader.max_concurrent ∧
    (2 < st.loader.max_concurrent →
      (update_stats now st).loader.max_concurrent = st.loader.max_concurrent - 1) := by
  have hmain : (update_stats now st).loader.max_concurrent
      = max 2 (st.loader.max_concurrent - 1) := by
    unfold update_stats
    simp only [get_load_stats, if_pos htick, if_pos (And.intro hpend hact)]
    by_cases hne : max 2 (st.loader.max_concurrent - 1) ≠ st.loader.max_concurrent
    · simp only [if_pos hne, set_max_concurrent]
      omega
    · simp only [if_neg hne]
      push_neg at hne
      omega
  refine ⟨hmain, ?_, ?_⟩
  · rw [hmain]
    omega
  · intro hgt
    rw [hmain]
    omega

/-- Witness instantiating `controller_decrease`: 21 pending entries, 5
active workers at `max_concurrent = 5`, tick at 600 ms: the pool shrinks
to 4. -/
theorem controller_decrease_witness :
    (update_stats 600 (mkThumb { mkLoader (CacheManagerState.init 10 10) with
        active_workers := ["a1", "a2", "a3", "a4", "a5"]
        pending_requests := (List.range 21).map (fun i => (toString i, none)) })
      ).loader.max_concurrent = 4 := by
  have h := controller_decrease 600 (mkThumb { mkLoader (CacheManagerState.init 10 10) with
        active_workers := ["a1", "a2", "a3", "a4", "a5"]
        pending_requests := (List.range 21).map (fun i => (toString i, none)) })
      (by decide) (by simp [mkThumb, mkLoader]) (by simp [mkThumb, mkLoader])
  rw [h.1]
  decide

/-- C4 (amended): at an eligible controller tick, whenever the raw
cumulative hit-rate `cache_hits / max(1, total_requests)` — the quantity
the code actually tests, not the exponentially-smoothed one — exceeds 0.7,
the decrease branch does not fire, and `1 ≤ max_concurrent <
base_max_concurrent`, `max_concurrent` is increased by exactly 1 and never
exceeds `base_max_concurrent`. -/
theorem controller_increase (now : Nat) (st : ThumbState)
    (htick : (now : Int) - st.last_adjust_ms ≥ 500)
    (hnodec : ¬((st.loader.pending_requests.length : Int) > 20 ∧
        (st.loader.active_workers.length : Int) ≥ st.loader.max_concurrent))
    (hhit : cache_hit_rate st > 7 / 10)
    (hcur : st.loader.max_concurrent < st.base_max_concurrent)
    (hpos : 1 ≤ st.loader.max_concurrent) :
    (update_stats now st).loader.max_concurrent = st.loader.max_concurrent + 1 ∧
    (update_stats now st).loader.max_concurrent ≤ st.base_max_concurrent := by
  have hmain : (update_stats now st).loader.max_concurrent
      = st.loader.max_concurrent + 1 := by
    unfold update_stats
    simp only [get_load_stats, if_pos htick, if_neg hnodec, if_pos (And.intro hhit hcur)]
    have hmin : min st.base_max_concurrent (st.loader.max_concurrent + 1)
        = st.loader.max_concurrent + 1 := by omega
    rw [hmin]
    have hne : st.loader.max_concurrent + 1 ≠ st.loader.max_concurrent := by omega
    simp only [if_pos hne, set_max_concurrent]
    omega
  exact ⟨hmain, by rw [hmain]; omega⟩

/-- Witness instantiating `controller_increase`: 4 hits out of 5 requests
(raw hit-rate 0.8), no backlog, `max_concurrent = 3 < base = 5`: the pool
grows to 4. -/
theorem controller_increase_witness :
    (update_stats 600 { mkThumb { mkLoader (CacheManagerState.init 10 10) with
        max_concurrent := 3 } with
        cache_hits := 4
        total_requests := 5 }).loader.max_concurrent = 4 := by
  have h := controller_increase 600 { mkThumb { mkLoader (CacheManagerState.init 10 10) with
        max_concurrent := 3 } with
        cache_hits := 4
        total_requests := 5 }
      (by decide) (by simp [mkThumb, mkLoader]) (by norm_num [cache_hit_rate, mkThumb, mkLoader])
      (by decide) (by decide)
  rw [h.1]
  decide

/-! Branch lemmas for `load_image`. -/

theorem put_to_memory_max (now : Nat) (k : String) (p : Pix) (cmst : CacheManagerState) :
    (put_to_memory now k p cmst).max_memory_cache_bytes = cmst.max_memory_cache_bytes := by
  unfold put_to_memory
  by_cases hov : cmst.memory_cache_size + pixSize p > (cmst.max_memory_cache_bytes : Int)
  · simp only [if_pos hov]
    by_cases hbig : pixSize p
        > (((cleanup_memory_cache cmst).max_memory_cache_bytes / 2 : Nat) : Int)
    · simp only [if_pos hbig]
      exact cleanup_memory_cache_max cmst
    · simp only [if_neg hbig]
      exact cleanup_memory_cache_max cmst
  · simp only [if_neg hov]
    by_cases hbig : pixSize p > ((cmst.max_memory_cache_bytes / 2 : Nat) : Int)
    · simp only [if_pos hbig]
    · simp only [if_neg hbig]

/-- A small item is always stored (the refusal guard cannot fire). -/
theorem put_to_memory_stores (now : Nat) (key : String) (p : Pix) (cmst : CacheManagerState)
    (h : pixSize p ≤ ((cmst.max_memory_cache_bytes / 2 : Nat) : Int)) :
    alLookup key (put_to_memory now key p cmst).memory_cache = some p := by
  unfold put_to_memory
  by_cases hov : cmst.memory_cache_size + pixSize p > (cmst.max_memory_cache_bytes : Int)
  · simp only [if_pos hov]
    rw [cleanup_memory_cache_max cmst]
    rw [if_neg (by omega)]
    exact alLookup_alUpdate_self _ _ _
  · simp only [if_neg hov]
    rw [if_neg (by omega)]
    exact alLookup_alUpdate_self _ _ _

theorem get_from_memory_max (now : Nat) (k : String) (cmst : CacheManagerState) :
    ((get_from_memory now k cmst).2).max_memory_cache_bytes = cmst.max_memory_cache_bytes := by
  unfold get_from_memory
  cases alLookup k cmst.memory_cache <;> rfl

/-- Variant-cache hit branch of `load_image`. -/
theorem load_image_variant_hit (scaleFn : Pix → Nat × Nat → Pix) (now : Nat)
    (url : String) (sz : Nat × Nat) (p : Pix) (st : LoaderState)
    (hact : st.active_workers.contains url = false)
    (hv : alLookup (get_cache_key (variant_url url sz)) st.cm.memory_cache = some p) :
    (load_image scaleFn now url (some sz) st).1 = true ∧
    (load_image scaleFn now url (some sz) st).2.active_workers = st.active_workers ∧
    (load_image scaleFn now url (some sz) st).2.pending_requests = st.pending_requests ∧
    (load_image scaleFn now url (some sz) st).2.spawned = st.spawned ∧
    (load_image scaleFn now url (some sz) st).2.max_concurrent = st.max_concurrent ∧
    (load_image scaleFn now url (some sz) st).2.last_launch_ms = st.last_launch_ms ∧
    (load_image scaleFn now url (some sz) st).2.cm.memory_cache = st.cm.memory_cache ∧
    (load_image scaleFn now url (some sz) st).2.cm.max_memory_cache_bytes
      = st.cm.max_memory_cache_bytes := by
  unfold load_image
  simp only [hact, Bool.false_eq_true, if_false, get_from_memory, hv]
  exact ⟨by trivial, by trivial, by trivial, by trivial, by trivial, by trivial, by trivial,
    by trivial⟩

/-- Base-cache hit branch of `load_image` with a requested size: the base
pixmap is rescaled and the variant is written through `put_to_memory`. -/
theorem load_image_base_hit_size (scaleFn : Pix → Nat × Nat → Pix) (now : Nat)
    (url : String) (sz : Nat × Nat) (p : Pix) (st : LoaderState)
    (hact : st.active_workers.contains url = false)
    (hv : alLookup (get_cache_key (variant_url url sz)) st.cm.memory_cache = none)
    (hb : alLookup (get_cache_key url) st.cm.memory_cache = some p) :
    (load_image scaleFn now url (some sz) st).1 = true ∧
    (load_image scaleFn now url (some sz) st).2.active_workers = st.active_workers ∧
    (load_image scaleFn now url (some sz) st).2.pending_requests = st.pending_requests ∧
    (load_image scaleFn now url (some sz) st).2.spawned = st.spawned ∧
    (load_image scaleFn now url (some sz) st).2.max_concurrent = st.max_concurrent ∧
    (load_image scaleFn now url (some sz) st).2.last_launch_ms = st.last_launch_ms ∧
    (pixSize (scaleFn p sz) ≤ ((st.cm.max_memory_cache_bytes / 2 : Nat) : Int) →
      alLookup (get_cache_key (variant_url url sz))
        (load_image scaleFn now url (some sz) st).2.cm.memory_cache
        = some (scaleFn p sz)) ∧
    (load_image scaleFn now url (some sz) st).2.cm.max_memory_cache_bytes
      = st.cm.max_memory_cache_bytes := by
  unfold load_image
  simp only [hact, Bool.false_eq_true, if_false, get_from_memory, hv, hb]
  refine ⟨by trivial, by trivial, by trivial, by trivial, by trivial, by trivial, ?_, ?_⟩
  · intro hsmall
    exact put_to_memory_stores now _ (scaleFn p sz) _ hsmall
  · exact put_to_memory_max now _ (scaleFn p sz) _

/-- Base-cache hit branch of `load_image` without a requested size. -/
theorem load_image_base_hit_nosize (scaleFn : Pix → Nat × Nat → Pix) (now : Nat)
    (url : String) (p : Pix) (st : LoaderState)
    (hact : st.active_workers.contains url = false)
    (hb : alLookup (get_cache_key url) st.cm.memory_cache = some p) :
    (load_image scaleFn now url none st).1 = true ∧
    (load_image scaleFn now url none st).2.active_workers = st.active_workers ∧
    (load_image scaleFn now url none st).2.pending_requests = st.pending_requests ∧
    (load_image scaleFn now url none st).2.spawned = st.spawned ∧
    (load_image scaleFn now url none st).2.max_concurrent = st.max_concurrent ∧
    (load_image scaleFn now url none st).2.last_launch_ms = st.last_launch_ms ∧
    (load_image scaleFn now url none st).2.cm.memory_cache = st.cm.memory_cache ∧
    (load_image scaleFn now url none st).2.cm.max_memory_cache_bytes
      = st.cm.max_memory_cache_bytes := by
  unfold load_image
  simp only [hact, Bool.false_eq_true, if_false, get_from_memory, hb]
  exact ⟨by trivial, by trivial, by trivial, by trivial, by trivial, by trivial, by trivial,
    by trivial⟩

/-- The cache-miss prefix of `load_image`, summarised: the state reaching
the capacity test is the input with only the miss counters bumped. -/
theorem load_image_miss (scaleFn : Pix → Nat × Nat → Pix) (now : Nat)
    (url : String) (size? : Option (Nat × Nat)) (st : LoaderState)
    (hact : st.active_workers.contains url = false)
    (hv : ∀ sz, size? = some sz →
      alLookup (get_cache_key (variant_url url sz)) st.cm.memory_cache = none)
    (hb : alLookup (get_cache_key url) st.cm.memory_cache = none) :
    load_image scaleFn now url size? st =
      (let stm := { st with cm :=
          { st.cm with misses := st.cm.misses + (match size? with | some _ => 2 | none => 1) } }
       if (stm.active_workers.length : Int) ≥ stm.max_concurrent then
         (false, { (if stm.pending_requests.contains (url, size?) then stm
                    else { stm with pending_requests := stm.pending_requests ++ [(url, size?)] })
            with dispatch_timer_active := true })
       else if (now : Int) - stm.last_launch_ms < min_launch_interval_ms then
         (false, { (if stm.pending_requests.contains (url, size?) then stm
                    else { stm with pending_requests := stm.pending_requests ++ [(url, size?)] })
            with dispatch_timer_active := true })
       else
         (true, { stm with last_launch_ms := (now : Int)
                           active_workers := stm.active_workers ++ [url]
                           start_ts := alUpdate url (now : Int) stm.start_ts
                           spawned := stm.spawned ++ [(url, size?)] })) := by
  cases size? with
  | none =>
    unfold load_image
    simp only [hact, Bool.false_eq_true, if_false, get_from_memory, hb]
  | some sz =>
    unfold load_image
    simp only [hact, Bool.false_eq_true, if_false, get_from_memory, hv sz rfl, hb]

/-- In-flight dedup guard of `load_image`: a call for a URL with an active
worker is a complete no-op. -/
theorem load_image_active (scaleFn : Pix → Nat × Nat → Pix) (now : Nat)
    (url : String) (size? : Option (Nat × Nat)) (st : LoaderState)
    (h : st.active_workers.contains url = true) :
    load_image scaleFn now url size? st = (false, st) := by
  unfold load_image
  rw [if_pos h]

/-- Back-to-back dedup on the full-miss path: whatever the first call did
(queue or spawn), an immediately repeated call spawns nothing new. -/
theorem load_image_dedup_miss_aux (scaleFn : Pix → Nat × Nat → Pix) (now : Nat)
    (url : String) (size? : Option (Nat × Nat)) (st : LoaderState)
    (hact : st.active_workers.contains url = false)
    (hv : ∀ sz, size? = some sz →
      alLookup (get_cache_key (variant_url url sz)) st.cm.memory_cache = none)
    (hb : alLookup (get_cache_key url) st.cm.memory_cache = none) :
    (load_image scaleFn now url size?
        (load_image scaleFn now url size? st).2).2.spawned
      = (load_image scaleFn now url size? st).2.spawned ∧
    (load_image scaleFn now url size? st).2.spawned.length ≤ st.spawned.length + 1 := by
  rw [load_image_miss scaleFn now url size? st hact hv hb]
  dsimp only
  by_cases hcap : ((st.active_workers.length : Int) ≥ st.max_concurrent)
  · rw [if_pos hcap]
    by_cases hc : st.pending_requests.contains (url, size?)
    · rw [if_pos hc]
      dsimp only
      rw [load_image_miss scaleFn now url size? _ (by exact hact) (by exact hv) (by exact hb)]
      dsimp only
      rw [if_pos hcap, if_pos hc]
      exact ⟨rfl, Nat.le_succ _⟩
    · rw [if_neg hc]
      dsimp only
      rw [load_image_miss scaleFn now url size? _ (by exact hact) (by exact hv) (by exact hb)]
      dsimp only
      rw [if_pos hcap]
      have hc2 : (st.pending_requests ++ [(url, size?)]).contains (url, size?) = true :=
        List.elem_iff.mpr (List.mem_append_right _ (List.mem_singleton_self _))
      rw [if_pos hc2]
      exact ⟨rfl, Nat.le_succ _⟩
  · rw [if_neg hcap]
    by_cases hthr : ((now : Int) - st.last_launch_ms < min_launch_interval_ms)
    · rw [if_pos hthr]
      by_cases hc : st.pending_requests.contains (url, size?)
      · rw [if_pos hc]
        dsimp only
        rw [load_image_miss scaleFn now url size? _ (by exact hact) (by exact hv) (by exact hb)]
        dsimp only
        rw [if_neg hcap, if_pos hthr, if_pos hc]
        exact ⟨rfl, Nat.le_succ _⟩
      · rw [if_neg hc]
        dsimp only
        rw [load_image_miss scaleFn now url size? _ (by exact hact) (by exact hv) (by exact hb)]
        dsimp only
        rw [if_neg hcap, if_pos hthr]
        have hc2 : (st.pending_requests ++ [(url, size?)]).contains (url, size?) = true :=
          List.elem_iff.mpr (List.mem_append_right _ (List.mem_singleton_self _))
        rw [if_pos hc2]
        exact ⟨rfl, Nat.le_succ _⟩
    · rw [if_neg hthr]
      dsimp only
      have hact2 : (st.active_workers ++ [url]).contains url = true :=
        List.elem_iff.mpr (List.mem_append_right _ (List.mem_singleton_self _))
      rw [load_image_active scaleFn now url size? _ hact2]
      exact ⟨rfl, by simp⟩

/-- C2 (amended): (a) a `load_image` call for a URL with an active worker is
a complete no-op (spawns nothing, enqueues nothing); (b) a call never adds
a duplicate pending entry — if `(url, size)` is already pending the pending
list is unchanged; (c) two back-to-back calls (same clock reading, no
worker active for the URL initially; cached entries within the 50%-of-cap
bound and rescaling size-nonincreasing, as holds for reachable states)
spawn at most one worker in total and the second call spawns none.  The
original claim is refuted separately: when `(url, size)` is pending but no
worker is active and capacity and throttle permit, the call itself spawns
the worker. -/
theorem load_image_dedup (scaleFn : Pix → Nat × Nat → Pix) (now : Nat)
    (url : String) (size? : Option (Nat × Nat)) (st : LoaderState) :
    (st.active_workers.contains url = true →
      load_image scaleFn now url size? st = (false, st)) ∧
    (st.pending_requests.contains (url, size?) = true →
      (load_image scaleFn now url size? st).2.pending_requests = st.pending_requests) ∧
    (st.active_workers.contains url = false →
     (∀ k q, alLookup k st.cm.memory_cache = some q →
        pixSize q ≤ ((st.cm.max_memory_cache_bytes / 2 : Nat) : Int)) →
     (∀ q s2, pixSize (scaleFn q s2) ≤ pixSize q) →
      (load_image scaleFn now url size?
          (load_image scaleFn now url size? st).2).2.spawned
        = (load_image scaleFn now url size? st).2.spawned ∧
      (load_image scaleFn now url size? st).2.spawned.length
        ≤ st.spawned.length + 1) := by
  refine ⟨load_image_active scaleFn now url size? st, ?_, ?_⟩
  · -- (b) no duplicate pending entry
    intro hpend
    cases hact : st.active_workers.contains url with
    | true => rw [load_image_active scaleFn now url size? st hact]
    | false =>
      rcases hsz : size? with - | sz
      · cases hb : alLookup (get_cache_key url) st.cm.memory_cache with
        | some p => exact (load_image_base_hit_nosize scaleFn now url p st hact hb).2.2.1
        | none =>
          rw [load_image_miss scaleFn now url none st hact (fun s2 hcontra => by cases hcontra) hb]
          rw [hsz] at hpend
          dsimp only
          rw [if_pos hpend]
          by_cases hcap : ((st.active_workers.length : Int) ≥ st.max_concurrent)
          · rw [if_pos hcap]
          · rw [if_neg hcap]
            by_cases hthr : ((now : Int) - st.last_launch_ms < min_launch_interval_ms)
            · rw [if_pos hthr]
            · rw [if_neg hthr]
      · cases hv : alLookup (get_cache_key (variant_url url sz)) st.cm.memory_cache with
        | some p => exact (load_image_variant_hit scaleFn now url sz p st hact hv).2.2.1
        | none =>
          cases hb : alLookup (get_cache_key url) st.cm.memory_cache with
          | some p => exact (load_image_base_hit_size scaleFn now url sz p st hact hv hb).2.2.1
          | none =>
            rw [load_image_miss scaleFn now url (some sz) st hact
              (fun s2 h2 => by cases h2; exact hv) hb]
            rw [hsz] at hpend
            dsimp only
            rw [if_pos hpend]
            by_cases hcap : ((st.active_workers.length : Int) ≥ st.max_concurrent)
            · rw [if_pos hcap]
            · rw [if_neg hcap]
              by_cases hthr : ((now : Int) - st.last_launch_ms < min_launch_interval_ms)
              · rw [if_pos hthr]
              · rw [if_neg hthr]
  · -- (c) back-to-back dedup
    intro hact hbnd hcontr
    rcases hsz : size? with - | sz
    · cases hb : alLookup (get_cache_key url) st.cm.memory_cache with
      | some p =>
        obtain ⟨e1, e2, e3, e4, e5, e6, e7, e8⟩ :=
          load_image_base_hit_nosize scaleFn now url p st hact hb
        have hact1 : (load_image scaleFn now url none st).2.active_workers.contains url
            = false := by rw [e2]; exact hact
        have hb1 : alLookup (get_cache_key url)
            (load_image scaleFn now url none st).2.cm.memory_cache = some p := by
          rw [e7]; exact hb
        obtain ⟨f1, f2, f3, f4, f5, f6, f7, f8⟩ :=
          load_image_base_hit_nosize scaleFn now url p
            (load_image scaleFn now url none st).2 hact1 hb1
        exact ⟨f4, by rw [e4]; omega⟩
      | none =>
        exact load_image_dedup_miss_aux scaleFn now url none st hact
          (fun s2 hcontra => by cases hcontra) hb
    · cases hv : alLookup (get_cache_key (variant_url url sz)) st.cm.memory_cache with
      | some p =>
        obtain ⟨e1, e2, e3, e4, e5, e6, e7, e8⟩ :=
          load_image_variant_hit scaleFn now url sz p st hact hv
        have hact1 : (load_image scaleFn now url (some sz) st).2.active_workers.contains url
            = false := by rw [e2]; exact hact
        have hv1 : alLookup (get_cache_key (variant_url url sz))
            (load_image scaleFn now url (some sz) st).2.cm.memory_cache = some p := by
          rw [e7]; exact hv
        obtain ⟨f1, f2, f3, f4, f5, f6, f7, f8⟩ :=
          load_image_variant_hit scaleFn now url sz p
            (load_image scaleFn now url (some sz) st).2 hact1 hv1
        exact ⟨f4, by rw [e4]; omega⟩
      | none =>
        cases hb : alLookup (get_cache_key url) st.cm.memory_cache with
        | some p =>
          obtain ⟨e1, e2, e3, e4, e5, e6, e7, e8⟩ :=
            load_image_base_hit_size scaleFn now url sz p st hact hv hb
          have hsmall : pixSize (scaleFn p sz)
              ≤ ((st.cm.max_memory_cache_bytes / 2 : Nat) : Int) :=
            le_trans (hcontr p sz) (hbnd (get_cache_key url) p hb)
          have hact1 : (load_image scaleFn now url (some sz) st).2.active_workers.contains url
              = false := by rw [e2]; exact hact
          obtain ⟨f1, f2, f3, f4, f5, f6, f7, f8⟩ :=
            load_image_variant_hit scaleFn now url sz (scaleFn p sz)
              (load_image scaleFn now url (some sz) st).2 hact1 (e7 hsmall)
          exact ⟨f4, by rw [e4]; omega⟩
        | none =>
          exact load_image_dedup_miss_aux scaleFn now url (some sz) st hact
            (fun s2 h2 => by cases h2; exact hv) hb

/-- Witness instantiating `load_image_dedup` on a concrete quiescent state
(empty caches, no workers): the second of two back-to-back calls spawns
nothing and at most one worker is spawned in total. -/
theorem load_image_dedup_witness :
    (load_image (fun p _ => p) 100 "u" none
        (load_image (fun p _ => p) 100 "u" none
          (mkLoader (CacheManagerState.init 10 10))).2).2.spawned
      = (load_image (fun p _ => p) 100 "u" none
          (mkLoader (CacheManagerState.init 10 10))).2.spawned ∧
    (load_image (fun p _ => p) 100 "u" none
        (mkLoader (CacheManagerState.init 10 10))).2.spawned.length
      ≤ (mkLoader (CacheManagerState.init 10 10)).spawned.length + 1 :=
  (load_image_dedup (fun p _ => p) 100 "u" none (mkLoader (CacheManagerState.init 10 10))).2.2
    (by decide) (fun k q h => Option.noConfusion h) (fun q s2 => le_refl _)

/-! Lemmas for the preload partition. -/

/-- Membership of the base key of a URL in a memory-cache map. -/
def baseCachedB (mem : List (String × Pix)) (u : String) : Bool :=
  (alLookup (get_cache_key u) mem).isSome

/-- Membership of the size-variant key of a URL in a memory-cache map. -/
def variantCachedB (mem : List (String × Pix)) (u : String) (size : Nat × Nat) : Bool :=
  (alLookup (get_cache_key (variant_url u size)) mem).isSome

theorem preloadScan_spec (now : Nat) (size : Nat × Nat) :
    ∀ (urls : List String) (st : ThumbState),
      urls.Nodup →
      (∀ u ∈ urls, (u, size) ∉ st.variant_queue) →
      (preloadScan now size urls st).1
        = urls.filter (fun u => !variantCachedB st.loader.cm.memory_cache u size
            && !baseCachedB st.loader.cm.memory_cache u) ∧
      (preloadScan now size urls st).2.variant_queue
        = st.variant_queue ++ (urls.filter
            (fun u => !variantCachedB st.loader.cm.memory_cache u size
              && baseCachedB st.loader.cm.memory_cache u)).map (fun u => (u, size)) ∧
      (preloadScan now size urls st).2.preload_queue = st.preload_queue ∧
      (preloadScan now size urls st).2.loader.cm.memory_cache
        = st.loader.cm.memory_cache ∧
      (preloadScan now size urls st).2.loader.active_workers = st.loader.active_workers ∧
      (preloadScan now size urls st).2.loader.spawned = st.loader.spawned := by
  intro urls
  induction urls with
  | nil =>
    intro st hnd hq
    exact ⟨rfl, by simp [preloadScan], rfl, rfl, rfl, rfl⟩
  | cons u rest ih =>
    intro st hnd hq
    rw [List.nodup_cons] at hnd
    rw [preloadScan]
    cases hv : alLookup (get_cache_key (variant_url u size)) st.loader.cm.memory_cache with
    | some p =>
      simp only [get_from_memory, hv, Option.isSome_some, if_true]
      have hpred1 : (!variantCachedB st.loader.cm.memory_cache u size
          && !baseCachedB st.loader.cm.memory_cache u) = false := by
        simp [variantCachedB, hv]
      have hpred2 : (!variantCachedB st.loader.cm.memory_cache u size
          && baseCachedB st.loader.cm.memory_cache u) = false := by
        simp [variantCachedB, hv]
      rw [List.filter_cons, List.filter_cons, hpred1, hpred2]
      simp only [Bool.false_eq_true, if_false]
      obtain ⟨c1, c2, c3, c4, c5, c6⟩ := ih
        ({ st with loader := { st.loader with
            cm := { st.loader.cm with
              access_times := alUpdate (get_cache_key (variant_url u size)) now
                st.loader.cm.access_times
              hits := st.loader.cm.hits + 1 } } } : ThumbState) hnd.2
        (fun u2 h2 => hq u2 (List.mem_cons_of_mem _ h2))
      exact ⟨c1, c2, c3, c4, c5, c6⟩
    | none =>
      simp only [get_from_memory, hv, Option.isSome_none, Bool.false_eq_true, if_false]
      cases hb : alLookup (get_cache_key u) st.loader.cm.memory_cache with
      | some bp =>
        simp only [hb, Option.isSome_some, if_true]
        have hc : st.variant_queue.contains (u, size) = false :=
          Bool.eq_false_iff.mpr (fun hcq =>
            hq u (List.mem_cons_self _ _) (List.elem_iff.mp hcq))
        simp only [hc, Bool.false_eq_true, if_false]
        have hpred1 : (!variantCachedB st.loader.cm.memory_cache u size
            && !baseCachedB st.loader.cm.memory_cache u) = false := by
          simp [variantCachedB, baseCachedB, hv, hb]
        have hpred2 : (!variantCachedB st.loader.cm.memory_cache u size
            && baseCachedB st.loader.cm.memory_cache u) = true := by
          simp [variantCachedB, baseCachedB, hv, hb]
        rw [List.filter_cons, List.filter_cons, hpred1, hpred2]
        simp only [Bool.false_eq_true, if_false, if_true, List.map_cons]
        obtain ⟨c1, c2, c3, c4, c5, c6⟩ := ih
          ({ st with
              loader := { st.loader with
                cm := { st.loader.cm with
                  memory_cache := st.loader.cm.memory_cache
                  misses := st.loader.cm.misses + 1
                  access_times := alUpdate (get_cache_key u) now st.loader.cm.access_times
                  hits := st.loader.cm.hits + 1 } }
              variant_queue := st.variant_queue ++ [(u, size)] } : ThumbState) hnd.2
          (by
            intro u2 h2 hmem
            rcases List.mem_append.mp hmem with hmem | hmem
            · exact hq u2 (List.mem_cons_of_mem _ h2) hmem
            · have heq : u2 = u := congrArg Prod.fst (List.mem_singleton.mp hmem)
              rw [heq] at h2
              exact hnd.1 h2)
        refine ⟨?_, ?_, ?_, ?_, ?_, ?_⟩
        · exact c1
        · rw [c2]
          rw [List.append_assoc]
          rfl
        · exact c3
        · exact c4
        · exact c5
        · exact c6
      | none =>
        simp only [hb, Option.isSome_none, Bool.false_eq_true, if_false]
        have hpred1 : (!variantCachedB st.loader.cm.memory_cache u size
            && !baseCachedB st.loader.cm.memory_cache u) = true := by
          simp [variantCachedB, baseCachedB, hv, hb]
        have hpred2 : (!variantCachedB st.loader.cm.memory_cache u size
            && baseCachedB st.loader.cm.memory_cache u) = false := by
          simp [variantCachedB, baseCachedB, hv, hb]
        rw [List.filter_cons, List.filter_cons, hpred1, hpred2]
        simp only [Bool.false_eq_true, if_false, if_true]
        obtain ⟨c1, c2, c3, c4, c5, c6⟩ := ih
          ({ st with
              loader := { st.loader with
                cm := { st.loader.cm with
                  misses := st.loader.cm.misses + 1 + 1 } } } : ThumbState) hnd.2
          (fun u2 h2 => hq u2 (List.mem_cons_of_mem _ h2))
        refine ⟨?_, ?_, ?_, ?_, ?_, ?_⟩
        · rw [c1]
        · exact c2
        · exact c3
        · exact c4
        · exact c5
        · exact c6

theorem appendPreload_spec (size : Nat × Nat) :
    ∀ (us : List String) (st : ThumbState),
      us.Nodup →
      (∀ u ∈ us, (u, size) ∉ st.preload_queue) →
      (appendPreload size us st).preload_queue
        = st.preload_queue ++ us.map (fun u => (u, size)) ∧
      (appendPreload size us st).variant_queue = st.variant_queue ∧
      (appendPreload size us st).loader = st.loader := by
  intro us
  induction us with
  | nil =>
    intro st hnd hp
    exact ⟨by simp [appendPreload], rfl, rfl⟩
  | cons u rest ih =>
    intro st hnd hp
    rw [List.nodup_cons] at hnd
    rw [appendPreload]
    have hc : st.preload_queue.contains (u, size) = false :=
      Bool.eq_false_iff.mpr (fun hcq =>
        hp u (List.mem_cons_self _ _) (List.elem_iff.mp hcq))
    simp only [hc, Bool.false_eq_true, if_false]
    obtain ⟨c1, c2, c3⟩ := ih
      ({ st with preload_queue := st.preload_queue ++ [(u, size)] } : ThumbState) hnd.2
      (by
        intro u2 h2 hmem
        rcases List.mem_append.mp hmem with hmem | hmem
        · exact hp u2 (List.mem_cons_of_mem _ h2) hmem
        · have heq : u2 = u := congrArg Prod.fst (List.mem_singleton.mp hmem)
          rw [heq] at h2
          exact hnd.1 h2)
    refine ⟨?_, c2, c3⟩
    rw [c1, List.append_assoc]
    rfl

theorem ite_thumb_active (c : Prop) [inst : Decidable c] (A B : ThumbState) (x : List String)
    (hA : A.loader.active_workers = x) (hB : B.loader.active_workers = x) :
    (if c then A else B).loader.active_workers = x := by
  split
  · exact hA
  · exact hB

theorem ite_thumb_spawned (c : Prop) [inst : Decidable c] (A B : ThumbState)
    (x : List (String × Option (Nat × Nat)))
    (hA : A.loader.spawned = x) (hB : B.loader.spawned = x) :
    (if c then A else B).loader.spawned = x := by
  split
  · exact hA
  · exact hB

theorem update_stats_frame (now : Nat) (st : ThumbState) :
    (update_stats now st).loader.active_workers = st.loader.active_workers ∧
    (update_stats now st).loader.spawned = st.loader.spawned := by
  unfold update_stats
  by_cases htick : ((now : Int) - st.last_adjust_ms ≥ 500)
  · simp only [if_pos htick]
    exact ⟨ite_thumb_active _ _ _ _ rfl rfl, ite_thumb_spawned _ _ _ _ rfl rfl⟩
  · simp only [if_neg htick]
    exact ⟨by trivial, by trivial⟩

theorem variantLoop_frame (scaleFn : Pix → Nat × Nat → Pix) (now : Nat) :
    ∀ (q : List (String × (Nat × Nat))) (processed : Nat) (st : ThumbState),
      (variantLoop scaleFn now q processed st).loader.active_workers
        = st.loader.active_workers ∧
      (variantLoop scaleFn now q processed st).loader.spawned = st.loader.spawned := by
  intro q
  induction q with
  | nil => intro processed st; exact ⟨rfl, rfl⟩
  | cons e rest ih =>
    intro processed st
    rw [variantLoop]
    by_cases hp : processed < 4
    · simp only [if_pos hp]
      cases hv : alLookup (get_cache_key (variant_url e.1 e.2)) st.loader.cm.memory_cache with
      | some p =>
        simp only [get_from_memory, hv, Option.isSome_some, if_true]
        exact ih _ _
      | none =>
        simp only [get_from_memory, hv, Option.isSome_none, Bool.false_eq_true, if_false]
        cases hb : alLookup (get_cache_key e.1) st.loader.cm.memory_cache with
        | some bp =>
          simp only [hb]
          exact ih _ _
        | none =>
          simp only [hb]
          exact ih _ _
    · simp only [if_neg hp]
      exact ⟨by trivial, by trivial⟩

theorem process_variant_queue_no_fetch (scaleFn : Pix → Nat × Nat → Pix) (now : Nat)
    (st : ThumbState) :
    (process_variant_queue scaleFn now st).loader.active_workers
      = st.loader.active_workers ∧
    (process_variant_queue scaleFn now st).loader.spawned = st.loader.spawned := by
  unfold process_variant_queue
  by_cases he : st.variant_queue = []
  · simp only [if_pos he]
    exact ⟨by trivial, by trivial⟩
  · simp only [if_neg he]
    obtain ⟨v1, v2⟩ := variantLoop_frame scaleFn now st.variant_queue 0 st
    obtain ⟨u1, u2⟩ := update_stats_frame now (variantLoop scaleFn now st.variant_queue 0 st)
    by_cases ht : (update_stats now (variantLoop scaleFn now st.variant_queue 0 st)).variant_queue ≠ []
    · simp only [if_pos ht]
      exact ⟨u1.trans v1, u2.trans v2⟩
    · simp only [if_neg ht]
      exact ⟨u1.trans v1, u2.trans v2⟩

/-- C8: `preload_thumbnails` partitions its input — variant-cached URLs are
appended to neither queue, base-cached-but-not-variant URLs (if not already
present) only to the variant queue, fully uncached URLs (if not already
present) only to the preload queue, in input order (part 1); for 100
distinct URLs, none variant-cached and exactly 80 base-cached, starting
with empty queues, exactly 80 enter the variant queue and 20 the preload
queue (part 2); and draining the variant queue touches neither the active
worker set nor the spawn log, so it performs no network fetch (part 3). -/
theorem preload_partition_spec (now : Nat) (size : Nat × Nat) (urls : List String)
    (st : ThumbState)
    (hnd : urls.Nodup)
    (hvq : ∀ u ∈ urls, (u, size) ∉ st.variant_queue)
    (hpq : ∀ u ∈ urls, (u, size) ∉ st.preload_queue) :
    ((preload_thumbnails now urls size st).variant_queue
        = st.variant_queue ++ (urls.filter
            (fun u => !variantCachedB st.loader.cm.memory_cache u size
              && baseCachedB st.loader.cm.memory_cache u)).map (fun u => (u, size)) ∧
      (preload_thumbnails now urls size st).preload_queue
        = st.preload_queue ++ (urls.filter
            (fun u => !variantCachedB st.loader.cm.memory_cache u size
              && !baseCachedB st.loader.cm.memory_cache u)).map (fun u => (u, size))) ∧
    (st.variant_queue = [] → st.preload_queue = [] → urls.length = 100 →
      (∀ u ∈ urls, variantCachedB st.loader.cm.memory_cache u size = false) →
      (urls.filter (fun u => baseCachedB st.loader.cm.memory_cache u)).length = 80 →
      (preload_thumbnails now urls size st).variant_queue.length = 80 ∧
      (preload_thumbnails now urls size st).preload_queue.length = 20) ∧
    (∀ (scaleFn : Pix → Nat × Nat → Pix) (now2 : Nat) (st2 : ThumbState),
      (process_variant_queue scaleFn now2 st2).loader.active_workers
        = st2.loader.active_workers ∧
      (process_variant_queue scaleFn now2 st2).loader.spawned = st2.loader.spawned) := by
  obtain ⟨s1, s2, s3, s4, s5, s6⟩ := preloadScan_spec now size urls st hnd hvq
  have hndu : (preloadScan now size urls st).1.Nodup := by
    rw [s1]
    exact hnd.filter _
  have hpu : ∀ u ∈ (preloadScan now size urls st).1,
      (u, size) ∉ (preloadScan now size urls st).2.preload_queue := by
    intro u hu
    rw [s3]
    rw [s1] at hu
    exact hpq u (List.mem_of_mem_filter hu)
  obtain ⟨a1, a2, a3⟩ := appendPreload_spec size (preloadScan now size urls st).1
    (preloadScan now size urls st).2 hndu hpu
  have hq1 : (preload_thumbnails now urls size st).variant_queue
      = (appendPreload size (preloadScan now size urls st).1
          (preloadScan now size urls st).2).variant_queue := by
    unfold preload_thumbnails
    dsimp only
    split <;> split <;> rfl
  have hq2 : (preload_thumbnails now urls size st).preload_queue
      = (appendPreload size (preloadScan now size urls st).1
          (preloadScan now size urls st).2).preload_queue := by
    unfold preload_thumbnails
    dsimp only
    split <;> split <;> rfl
  have hchar1 : (preload_thumbnails now urls size st).variant_queue
      = st.variant_queue ++ (urls.filter
          (fun u => !variantCachedB st.loader.cm.memory_cache u size
            && baseCachedB st.loader.cm.memory_cache u)).map (fun u => (u, size)) := by
    rw [hq1, a2, s2]
  have hchar2 : (preload_thumbnails now urls size st).preload_queue
      = st.preload_queue ++ (urls.filter
          (fun u => !variantCachedB st.loader.cm.memory_cache u size
            && !baseCachedB st.loader.cm.memory_cache u)).map (fun u => (u, size)) := by
    rw [hq2, a1, s3, s1]
  refine ⟨⟨hchar1, hchar2⟩, ?_, fun scaleFn now2 st2 =>
    process_variant_queue_no_fetch scaleFn now2 st2⟩
  intro hv0 hp0 hlen hvnone hbase
  have hfv : urls.filter (fun u => !variantCachedB st.loader.cm.memory_cache u size
        && baseCachedB st.loader.cm.memory_cache u)
      = urls.filter (fun u => baseCachedB st.loader.cm.memory_cache u) := by
    apply List.filter_congr
    intro u hu
    rw [hvnone u hu]
    simp
  have hfp : urls.filter (fun u => !variantCachedB st.loader.cm.memory_cache u size
        && !baseCachedB st.loader.cm.memory_cache u)
      = urls.filter (fun u => !baseCachedB st.loader.cm.memory_cache u) := by
    apply List.filter_congr
    intro u hu
    rw [hvnone u hu]
    simp
  have hsplit := List.length_eq_length_filter_add
    (l := urls) (fun u => baseCachedB st.loader.cm.memory_cache u)
  constructor
  · rw [hchar1, hv0, hfv]
    simp [hbase]
  · rw [hchar2, hp0, hfp]
    simp only [List.nil_append, List.length_map]
    omega

/-- One hundred demo URLs `u0` ... `u99`. -/
def demoUrls : List String := (List.range 100).map (fun i => "u" ++ toString i)

/-- A scheduler state whose memory cache holds base entries for the first
80 demo URLs and no size variants. -/
def demoThumb : ThumbState :=
  mkThumb (mkLoader { CacheManagerState.init 1048576 1048576 with
    memory_cache := (demoUrls.take 80).map (fun u => (u, ⟨100, 100⟩)) })

set_option maxRecDepth 100000 in
/-- Witness instantiating `preload_partition_spec` on the 100 demo URLs, 80
of them base-cached: exactly 80 enter the variant queue and 20 the preload
queue. -/
theorem preload_partition_spec_witness :
    (preload_thumbnails 0 demoUrls (64, 64) demoThumb).variant_queue.length = 80 ∧
    (preload_thumbnails 0 demoUrls (64, 64) demoThumb).preload_queue.length = 20 :=
  (preload_partition_spec 0 (64, 64) demoUrls demoThumb (by decide)
      (by decide) (by decide)).2.1
    rfl rfl (by decide) (by decide) (by decide)

end FalconPy
